import Mathlib

/-!
Verification of the dex_sources price adapters.

The repository consists of four Python scripts (`DS_1INCH_ETH.py`,
`DS_1INCH_BSC.py`, `DS_ARKEN_ETH.py`, `DS_ARKEN_BSC.py`) sharing two shapes:

* 1inch shape: the decoded provider response maps address strings directly to
  decimal strings;
* Arken shape: the response maps address strings to objects carrying a
  `"price"` field, and the native symbol `"ETH"` is aliased to `"WETH"` both
  when collecting addresses and by a back-fill of the final price map.

The embedding below models the scripts over explicit data: the symbol table is
an association list in source order, the decoded response is an association
list of entries, and the HTTP fetch is an oracle function passed as a
parameter.  Python `decimal.Decimal` values are modelled by `Dec`: a finite
value is a sign, a coefficient and an exponent; the special values `Infinity`
and `NaN` (which the decimal parser accepts) are separate constructors.  NaN
sign and diagnostic digits are dropped, as the pipeline rejects every NaN at
the `price < 0` comparison before they could matter.  String lowercasing is
modelled for ASCII, which covers the hexadecimal address domain.
-/

/-- Lowercase an ASCII letter, leaving every other character unchanged
(model of Python `str.lower` on the ASCII range). -/
def asciiLowerChar (c : Char) : Char :=
  if 65 ≤ c.toNat ∧ c.toNat ≤ 90 then Char.ofNat (c.toNat + 32) else c

/-- Lowercase a string characterwise. -/
def lowerStr (s : String) : String :=
  String.mk (s.data.map asciiLowerChar)

/-- Decision of ASCII digit characters. -/
def isDigitChar (c : Char) : Bool :=
  48 ≤ c.toNat && c.toNat ≤ 57

/-- Decision of the characters Python treats as string whitespace (the code
points satisfying `str.isspace`, trimmed by the decimal parser): `0x09`-`0x0d`,
`0x1c`-`0x1f`, space, next line `0x85`, no-break space `0xa0`, Ogham space
`0x1680`, the `0x2000`-`0x200a` spaces, the separators `0x2028` and `0x2029`,
narrow no-break space `0x202f`, mathematical space `0x205f`, and ideographic
space `0x3000`. -/
def isSpaceChar (c : Char) : Bool :=
  (9 ≤ c.toNat && c.toNat ≤ 13) || (28 ≤ c.toNat && c.toNat ≤ 32) ||
  c.toNat == 133 || c.toNat == 160 || c.toNat == 5760 ||
  (8192 ≤ c.toNat && c.toNat ≤ 8202) || c.toNat == 8232 || c.toNat == 8233 ||
  c.toNat == 8239 || c.toNat == 8287 || c.toNat == 12288

/-- Decision of ASCII characters.  On all-ASCII strings the parser model below
matches the Python decimal parser exactly; Python additionally maps non-ASCII
Unicode decimal digits to their values, which is outside this model, so the
theorems that invoke parser rejection restrict the rate string to ASCII. -/
def isAsciiChar (c : Char) : Bool :=
  c.toNat ≤ 127

/-- Value of a big-endian list of digit characters. -/
def digitsValAux (acc : ℕ) : List Char → ℕ
  | [] => acc
  | c :: r => digitsValAux (10 * acc + (c.toNat - 48)) r

/-- Value of a big-endian list of digit characters, e.g.
`digitVal ['0', '4', '2'] = 42`. -/
def digitVal (l : List Char) : ℕ :=
  digitsValAux 0 l

/-- The digit character of a value below ten. -/
def digChar (d : ℕ) : Char :=
  Char.ofNat (48 + d)

/-- Worker for `natChars`: big-endian digit characters of `n`, empty for `0`;
the first argument is recursion fuel (any bound on `n` suffices). -/
def natCharsAux : ℕ → ℕ → List Char
  | 0, _ => []
  | fuel + 1, n => if n = 0 then [] else natCharsAux fuel (n / 10) ++ [digChar (n % 10)]

/-- Big-endian digit characters of a natural number, `"0"` included. -/
def natChars (n : ℕ) : List Char :=
  if n = 0 then ['0'] else natCharsAux n n

/-- Strip every trailing occurrence of `c`, as Python `str.rstrip` does for a
one-character argument. -/
def rstripList (l : List Char) (c : Char) : List Char :=
  (l.reverse.dropWhile (fun x => x = c)).reverse

/-- Model of Python `decimal.Decimal` values: a finite value is
`(-1)^neg * num * 10^exp`; `Infinity` and `NaN` are the special values the
decimal parser also accepts. -/
inductive Dec where
  | finite (neg : Bool) (num : ℕ) (exp : ℤ)
  | infinity (neg : Bool)
  | nan
deriving DecidableEq, Repr

/-- Rational value of a finite `Dec`; the special values are given the junk
value `0` (the pipeline never takes the value of a special). -/
def Dec.val : Dec → ℚ
  | .finite neg num exp => (if neg then -1 else 1) * (num : ℚ) * (10 : ℚ) ^ exp
  | .infinity _ => 0
  | .nan => 0

/-- Consume one optional sign character; `true` means negative. -/
def stripSign : List Char → Bool × List Char
  | '+' :: r => (false, r)
  | '-' :: r => (true, r)
  | l => (false, l)

/-- Parse the exponent part following the `e`/`E` indicator: an optional sign
and a nonempty run of digits, with nothing after. -/
def parseExpVal (l : List Char) : Option ℤ :=
  let p := stripSign l
  let ds := p.2.takeWhile isDigitChar
  if ds = [] ∨ p.2.dropWhile isDigitChar ≠ [] then none
  else some ((if p.1 then -1 else 1) * (digitVal ds : ℤ))

/-- Finish parsing a finite numeric string from its sign, integer digits,
fractional digits and remaining characters (an optional exponent part). -/
def finishNum (neg : Bool) (ip fp rest : List Char) : Option Dec :=
  match rest with
  | [] => some (.finite neg (digitVal (ip ++ fp)) (-(fp.length : ℤ)))
  | c :: r =>
    if c = 'e' ∨ c = 'E' then
      match parseExpVal r with
      | some e => some (.finite neg (digitVal (ip ++ fp)) (e - (fp.length : ℤ)))
      | none => none
    else none

/-- Parse the numeric part after the optional sign has been consumed. -/
def parseNumericValue (neg : Bool) (l : List Char) : Option Dec :=
  let low := l.map asciiLowerChar
  if low = "infinity".data ∨ low = "inf".data then some (.infinity neg)
  else if (low.take 3 = "nan".data ∧ (low.drop 3).all isDigitChar) ∨
      (low.take 4 = "snan".data ∧ (low.drop 4).all isDigitChar) then some .nan
  else
    let ip := l.takeWhile isDigitChar
    let r1 := l.dropWhile isDigitChar
    match r1 with
    | '.' :: r2 =>
      let fp := r2.takeWhile isDigitChar
      let r3 := r2.dropWhile isDigitChar
      if ip = [] ∧ fp = [] then none else finishNum neg ip fp r3
    | _ => if ip = [] then none else finishNum neg ip [] r1

/-- Model of the Python `Decimal` constructor on a string argument: strip
leading and trailing whitespace, then remove underscores throughout, then
parse the decimal numeric-string grammar (optional sign; digits with an
optional point and an optional exponent; or the special values,
case-insensitively).  `none` models the `InvalidOperation` exception.
Whitespace is trimmed before underscores are skipped, as in the Python
implementations, so a whitespace character shielded by an underscore (as in
`"1 _"`) survives into the grammar and is rejected. -/
def parseDecimal (s : String) : Option Dec :=
  let l0 := s.data.dropWhile isSpaceChar
  let l1 := (l0.reverse.dropWhile isSpaceChar).reverse
  let l2 := l1.filter (fun c => c ≠ '_')
  let p := stripSign l2
  parseNumericValue p.1 p.2

/-- Model of the Python comparison `price < 0` on a `Dec`: a NaN operand
signals `InvalidOperation`, otherwise the comparison returns a boolean
(`-0` is not below zero). -/
def decimalLt0 : Dec → Except String Bool
  | .finite neg num _ => .ok (neg && !(num == 0))
  | .infinity neg => .ok neg
  | .nan => .error "InvalidOperation: comparison involving NaN"

/-- Round-half-even division of natural numbers (the banker's rounding used
when Python formats a `Decimal` to fewer digits than it carries). -/
def halfEvenDiv (n d : ℕ) : ℕ :=
  let q := n / d
  let r := n % d
  if 2 * r < d then q else if d < 2 * r then q + 1
  else if q % 2 = 0 then q else q + 1

/-- The coefficient magnitude scaled to 9 fractional digits,
rounded half-even: the natural number `m` with `m / 10^9` the 9-digit
rounding of `num * 10^exp`. -/
def scaled9 (num : ℕ) (exp : ℤ) : ℕ :=
  if 0 ≤ exp + 9 then num * 10 ^ (exp + 9).toNat
  else halfEvenDiv num (10 ^ (-(exp + 9)).toNat)

/-- Pad a digit list on the left with `'0'` up to 9 characters. -/
def padLeft9 (l : List Char) : List Char :=
  List.replicate (9 - l.length) '0' ++ l

/-- Model of `"{:.9f}".format(price)`: sign, integer digits, point, exactly
nine fractional digits; the special values format to their names. -/
def formatFixed9Chars : Dec → List Char
  | .finite neg num exp =>
    let m := scaled9 num exp
    (if neg then ['-'] else []) ++
      natChars (m / 10 ^ 9) ++ '.' :: padLeft9 (natChars (m % 10 ^ 9))
  | .infinity neg => (if neg then ['-'] else []) ++ "Infinity".data
  | .nan => "NaN".data

/-- Model of `"{:.9f}".format(price).rstrip("0").rstrip(".")`, the price
rendering stored into the price map. -/
def pyFormatChars (d : Dec) : List Char :=
  rstripList (rstripList (formatFixed9Chars d) '0') '.'

/-- String form of `pyFormatChars`. -/
def pyFormatPrice (d : Dec) : String :=
  String.mk (pyFormatChars d)

/-- The canonical stripped rendering of the scaled magnitude `m`: the digits of
`m / 10^9`, then, when the fractional part `m % 10^9` is nonzero, a point and
the 9-padded fractional digits with trailing zeros stripped.  The lemma
`pyFormatChars_finite` shows `pyFormatChars` produces exactly this after the
sign. -/
def canonChars (m : ℕ) : List Char :=
  natChars (m / 10 ^ 9) ++
    (if m % 10 ^ 9 = 0 then []
     else '.' :: rstripList (padLeft9 (natChars (m % 10 ^ 9))) '0')

/-- A symbol table: the `SYMBOLS_TO_ADDRS` dict as an association list in
source order (keys are distinct in every deployment). -/
abbrev Table := List (String × String)

/-- Dict lookup `SYMBOLS_TO_ADDRS[symbol]` together with the membership test
`symbol in SYMBOLS_TO_ADDRS`. -/
def lookupTable : Table → String → Option String
  | [], _ => none
  | (k, v) :: t, s => if k = s then some v else lookupTable t s

/-- Lookup in the reverse dict `{v.lower(): k for k, v in SYMBOLS_TO_ADDRS}`:
on lowered-address collisions the later table entry wins, as in a Python dict
comprehension. -/
def revLookup (t : Table) (a : String) : Option String :=
  (t.reverse.find? (fun p => lowerStr p.2 == a)).map Prod.fst

/-- Address collection of the 1inch scripts: one table address appended per
requested symbol found in the table, duplicates preserved. -/
def collectAddrs1inch (t : Table) : List String → List String
  | [] => []
  | s :: rest =>
    match lookupTable t s with
    | some a => a :: collectAddrs1inch t rest
    | none => collectAddrs1inch t rest

/-- The Arken alias rule: the native symbol `"ETH"` is looked up as `"WETH"`. -/
def aliasETH (s : String) : String :=
  if s = "ETH" then "WETH" else s

/-- Model of `set.add`: insert an address unless already present (set
iteration order is modelled as insertion order; only membership matters to the
scripts' behaviour). -/
def insertAddr (acc : List String) (a : String) : List String :=
  if a ∈ acc then acc else acc ++ [a]

/-- Worker for the Arken address collection. -/
def collectAddrsArkenAux (t : Table) (acc : List String) : List String → List String
  | [] => acc
  | s :: rest =>
    match lookupTable t (aliasETH s) with
    | some a => collectAddrsArkenAux t (insertAddr acc a) rest
    | none => collectAddrsArkenAux t acc rest

/-- Address collection of the Arken scripts: aliased symbols are looked up in
the table and the found addresses collected into a set. -/
def collectAddrsArken (t : Table) (symbols : List String) : List String :=
  collectAddrsArkenAux t [] symbols

/-- The price-extraction step shared by both shapes, as the loop body of
`get_price_map`: for each response entry whose lowered address is a lowered
table address, extract the rate string, parse it, reject a negative value, and
store the rendering under the matched symbol.  The accumulator is the
`defaultdict(lambda: "-")`, modelled as a total function. -/
def processPrices {V : Type} (t : Table) (getRate : V → Except String String) :
    List (String × V) → (String → String) → Except String (String → String)
  | [], pm => .ok pm
  | (addr, v) :: rest, pm =>
    match revLookup t (lowerStr addr) with
    | none => processPrices t getRate rest pm
    | some symbol =>
      match getRate v with
      | .error e => .error e
      | .ok rate =>
        match parseDecimal rate with
        | none => .error "InvalidOperation: invalid decimal string"
        | some price =>
          match decimalLt0 price with
          | .error e => .error e
          | .ok true => .error "Negative number returned"
          | .ok false =>
            processPrices t getRate rest
              (fun s => if s = symbol then pyFormatPrice price else pm s)

/-- Rate extraction of the 1inch shape: the response value is the rate string
itself. -/
def rate1inch (v : String) : Except String String :=
  .ok v

/-- An Arken response value: a decoded JSON object with string fields,
modelled as an association list. -/
abbrev ArkenData := List (String × String)

/-- Field access `data["price"]` of the Arken shape; a missing field models
the `KeyError`. -/
def rateArken (v : ArkenData) : Except String String :=
  match lookupTable v "price" with
  | some r => .ok r
  | none => .error "KeyError: price"

/-- `get_price_map` of the 1inch scripts, with the HTTP fetch supplied as an
oracle from the address list to the decoded response (or a transport error). -/
def get_price_map_1inch (t : Table) (symbols : List String)
    (fetch : List String → Except String (List (String × String))) :
    Except String (String → String) :=
  match fetch (collectAddrs1inch t symbols) with
  | .error e => .error e
  | .ok prices => processPrices t rate1inch prices (fun _ => "-")

/-- `get_price_map` of the Arken scripts: aliased address collection, price
extraction through the `"price"` field, and the `"ETH"` back-fill from
`"WETH"`. -/
def get_price_map_arken (t : Table) (symbols : List String)
    (fetch : List String → Except String (List (String × ArkenData))) :
    Except String (String → String) :=
  match fetch (collectAddrsArken t symbols) with
  | .error e => .error e
  | .ok prices =>
    match processPrices t rateArken prices (fun _ => "-") with
    | .error e => .error e
    | .ok pm =>
      if "ETH" ∈ symbols then
        .ok (fun s => if s = "ETH" then pm "WETH" else pm s)
      else
        .ok pm

/-- `main` of the 1inch scripts: the comma-join of the price-map values of
the requested symbols, in request order. -/
def main1inch (t : Table) (symbols : List String)
    (fetch : List String → Except String (List (String × String))) :
    Except String String :=
  match get_price_map_1inch t symbols fetch with
  | .error e => .error e
  | .ok pm => .ok (String.intercalate "," (symbols.map pm))

/-- `main` of the Arken scripts. -/
def mainArken (t : Table) (symbols : List String)
    (fetch : List String → Except String (List (String × ArkenData))) :
    Except String String :=
  match get_price_map_arken t symbols fetch with
  | .error e => .error e
  | .ok pm => .ok (String.intercalate "," (symbols.map pm))

namespace DS_1INCH_ETH

/-- The symbol table of `DS_1INCH_ETH.py`. -/
def SYMBOLS_TO_ADDRS : Table :=
  [("WBTC", "0x2260fac5e5542a773aa44fbcfedf7c193bc2c599"),
   ("ETH", "0xeeeeeeeeeeeeeeeeeeeeeeeeeeeeeeeeeeeeeeee"),
   ("stETH", "0xae7ab96520de3a18e5e111b5eaab095312d7fe84"),
   ("wstETH", "0x7f39c581f595b53c5cb19bd0b3f8da6c935e2ca0"),
   ("WETH", "0xc02aaa39b223fe8d0a0e5c4f27ead9083c756cc2"),
   ("XOR", "0x40fd72257597aa14c7231a7b1aaa29fce868f677"),
   ("RLB", "0x046eee2cc3188071c02bfc1745a6b17c656e3f3d"),
   ("VAL", "0xe88f8313e61a97cec1871ee37fbbe2a8bf3ed1e4"),
   ("PSWAP", "0x519c1001d550c0a1dae7d1fc220f7d14c2a521bb"),
   ("XST", "0xC60D6662027F5797Cf873bFe80BcF048e30Fc35e"),
   ("MUTE", "0xa49d7499271ae71cd8ab9ac515e6694c755d400c"),
   ("MTRG", "0xBd2949F67DcdC549c6Ebe98696449Fa79D988A9F")]

/-- `get_price_map` of `DS_1INCH_ETH.py`. -/
def get_price_map (symbols : List String)
    (fetch : List String → Except String (List (String × String))) :=
  get_price_map_1inch SYMBOLS_TO_ADDRS symbols fetch

/-- `main` of `DS_1INCH_ETH.py`. -/
def main (symbols : List String)
    (fetch : List String → Except String (List (String × String))) :=
  main1inch SYMBOLS_TO_ADDRS symbols fetch

end DS_1INCH_ETH

namespace DS_1INCH_BSC

/-- The symbol table of `DS_1INCH_BSC.py`. -/
def SYMBOLS_TO_ADDRS : Table :=
  [("BETH", "0x250632378e573c6be1ac2f97fcdf00515d0aa91b"),
   ("PHB", "0x0409633A72D846fc5BBe2f98D88564D35987904D"),
   ("VC", "0x2bf83d080d8bc4715984e75e5b3d149805d11751")]

/-- `get_price_map` of `DS_1INCH_BSC.py`. -/
def get_price_map (symbols : List String)
    (fetch : List String → Except String (List (String × String))) :=
  get_price_map_1inch SYMBOLS_TO_ADDRS symbols fetch

/-- `main` of `DS_1INCH_BSC.py`. -/
def main (symbols : List String)
    (fetch : List String → Except String (List (String × String))) :=
  main1inch SYMBOLS_TO_ADDRS symbols fetch

end DS_1INCH_BSC

namespace DS_ARKEN_ETH

/-- The symbol table of `DS_ARKEN_ETH.py`. -/
def SYMBOLS_TO_ADDRS : Table :=
  [("WBTC", "0x2260fac5e5542a773aa44fbcfedf7c193bc2c599"),
   ("stETH", "0xae7ab96520de3a18e5e111b5eaab095312d7fe84"),
   ("wstETH", "0x7f39c581f595b53c5cb19bd0b3f8da6c935e2ca0"),
   ("WETH", "0xc02aaa39b223fe8d0a0e5c4f27ead9083c756cc2"),
   ("XOR", "0x40fd72257597aa14c7231a7b1aaa29fce868f677"),
   ("RLB", "0x046eee2cc3188071c02bfc1745a6b17c656e3f3d"),
   ("VAL", "0xe88f8313e61a97cec1871ee37fbbe2a8bf3ed1e4"),
   ("PSWAP", "0x519c1001d550c0a1dae7d1fc220f7d14c2a521bb"),
   ("XST", "0xC60D6662027F5797Cf873bFe80BcF048e30Fc35e"),
   ("MUTE", "0xa49d7499271ae71cd8ab9ac515e6694c755d400c"),
   ("MTRG", "0xbd2949f67dcdc549c6ebe98696449fa79d988a9f")]

/-- `get_price_map` of `DS_ARKEN_ETH.py`. -/
def get_price_map (symbols : List String)
    (fetch : List String → Except String (List (String × ArkenData))) :=
  get_price_map_arken SYMBOLS_TO_ADDRS symbols fetch

/-- `main` of `DS_ARKEN_ETH.py`. -/
def main (symbols : List String)
    (fetch : List String → Except String (List (String × ArkenData))) :=
  mainArken SYMBOLS_TO_ADDRS symbols fetch

end DS_ARKEN_ETH

namespace DS_ARKEN_BSC

/-- The symbol table of `DS_ARKEN_BSC.py`. -/
def SYMBOLS_TO_ADDRS : Table :=
  [("BETH", "0x250632378e573c6be1ac2f97fcdf00515d0aa91b"),
   ("PHB", "0x0409633A72D846fc5BBe2f98D88564D35987904D")]

/-- `get_price_map` of `DS_ARKEN_BSC.py`. -/
def get_price_map (symbols : List String)
    (fetch : List String → Except String (List (String × ArkenData))) :=
  get_price_map_arken SYMBOLS_TO_ADDRS symbols fetch

/-- `main` of `DS_ARKEN_BSC.py`. -/
def main (symbols : List String)
    (fetch : List String → Except String (List (String × ArkenData))) :=
  mainArken SYMBOLS_TO_ADDRS symbols fetch

end DS_ARKEN_BSC

/-- A string denotes `q` as a plain decimal numeral when it consists of a
nonempty integer-digit part optionally followed by a point and fractional
digits, reading off to the value `q`. -/
def DenotesPlain (s : String) (q : ℚ) : Prop :=
  ∃ I F : List Char, I ≠ [] ∧ (∀ c ∈ I, isDigitChar c) ∧ (∀ c ∈ F, isDigitChar c) ∧
    ((s.data = I ∧ F = []) ∨ s.data = I ++ '.' :: F) ∧
    q = (digitVal I : ℚ) + (digitVal F : ℚ) / (10 : ℚ) ^ F.length

/-- A plain decimal numeral in stripped form: no trailing fractional zero and
no trailing point (a fractional part, when present, is nonempty and does not
end in `'0'`). -/
def StrippedNumeral (s : String) : Prop :=
  ∃ I F : List Char, I ≠ [] ∧ (∀ c ∈ I, isDigitChar c) ∧ (∀ c ∈ F, isDigitChar c) ∧
    ((s.data = I ∧ F = []) ∨
      (s.data = I ++ '.' :: F ∧ F ≠ [] ∧ F.getLast? ≠ some '0'))

/-! ### Digit-value lemmas -/

theorem digitsValAux_nil (acc : ℕ) : digitsValAux acc [] = acc := rfl

theorem digitsValAux_cons (acc : ℕ) (c : Char) (r : List Char) :
    digitsValAux acc (c :: r) = digitsValAux (10 * acc + (c.toNat - 48)) r := rfl

theorem digitVal_nil : digitVal [] = 0 := rfl

theorem digitsValAux_eq (acc : ℕ) (l : List Char) :
    digitsValAux acc l = acc * 10 ^ l.length + digitVal l := by
  induction l generalizing acc with
  | nil => simp [digitsValAux_nil, digitVal_nil]
  | cons c r ih =>
    have h2 : digitVal (c :: r) = digitsValAux (10 * 0 + (c.toNat - 48)) r := rfl
    rw [digitsValAux_cons, ih, h2, ih, List.length_cons, pow_succ]
    ring

theorem digitVal_cons (c : Char) (l : List Char) :
    digitVal (c :: l) = (c.toNat - 48) * 10 ^ l.length + digitVal l := by
  have h2 : digitVal (c :: l) = digitsValAux (10 * 0 + (c.toNat - 48)) l := rfl
  rw [h2, digitsValAux_eq]
  ring_nf

theorem digitVal_append (a b : List Char) :
    digitVal (a ++ b) = digitVal a * 10 ^ b.length + digitVal b := by
  induction a with
  | nil => simp [digitVal_nil]
  | cons c r ih =>
    rw [List.cons_append, digitVal_cons, digitVal_cons, ih, List.length_append, pow_add]
    ring

theorem digitVal_replicate_zero (k : ℕ) :
    digitVal (List.replicate k '0') = 0 := by
  induction k with
  | zero => rfl
  | succ n ih =>
    rw [List.replicate_succ, digitVal_cons, ih]
    simp

theorem toNat_sub_48_lt (c : Char) (h : isDigitChar c = true) : c.toNat - 48 < 10 := by
  unfold isDigitChar at h
  simp only [Bool.and_eq_true, decide_eq_true_eq] at h
  omega

theorem digitVal_lt {l : List Char} (h : ∀ c ∈ l, isDigitChar c = true) :
    digitVal l < 10 ^ l.length := by
  induction l with
  | nil => simp [digitVal_nil]
  | cons c r ih =>
    rw [digitVal_cons, List.length_cons, pow_succ]
    have hc : c.toNat - 48 < 10 := toNat_sub_48_lt c (h c (List.mem_cons_self c r))
    have hr : digitVal r < 10 ^ r.length := ih (fun x hx => h x (List.mem_cons_of_mem c hx))
    nlinarith

theorem digitVal_concat (l : List Char) (c : Char) :
    digitVal (l ++ [c]) = 10 * digitVal l + (c.toNat - 48) := by
  rw [digitVal_append, digitVal_cons, digitVal_nil]
  simp only [List.length_cons, List.length_nil, pow_one, pow_zero, mul_one, Nat.add_zero]
  omega

theorem digitVal_concat_mod_ten (l : List Char) (c : Char) (h : isDigitChar c = true) :
    digitVal (l ++ [c]) % 10 = c.toNat - 48 := by
  rw [digitVal_concat]
  have := toNat_sub_48_lt c h
  omega

/-! ### Trailing-strip lemmas -/

theorem rstripList_nil (c : Char) : rstripList [] c = [] := rfl

theorem rstrip_decomp (l : List Char) (c : Char) :
    ∃ k, l = rstripList l c ++ List.replicate k c := by
  refine ⟨(l.reverse.takeWhile (fun x => x = c)).length, ?_⟩
  have h1 : l.reverse.takeWhile (fun x => x = c) =
      List.replicate (l.reverse.takeWhile (fun x => x = c)).length c :=
    List.eq_replicate_of_mem (fun b hb => by
      have := List.mem_takeWhile_imp hb
      simpa using this)
  conv_lhs => rw [← List.reverse_reverse l,
    ← List.takeWhile_append_dropWhile (fun x => decide (x = c)) l.reverse]
  rw [List.reverse_append]
  unfold rstripList
  rw [show (List.takeWhile (fun x => decide (x = c)) l.reverse) =
      List.replicate (l.reverse.takeWhile (fun x => x = c)).length c from h1,
    List.reverse_replicate]
  simp

theorem rstripList_getLast?_ne (l : List Char) (c : Char) :
    (rstripList l c).getLast? ≠ some c := by
  unfold rstripList
  rw [List.getLast?_reverse]
  have hw := List.head?_dropWhile_not (fun x => decide (x = c)) l.reverse
  cases hd : (l.reverse.dropWhile (fun x => decide (x = c))).head? with
  | none => simp [hd]
  | some a =>
    rw [hd] at hw
    simp only [decide_eq_false_iff_not] at hw
    intro hc
    exact hw (Option.some.inj hc)

theorem rstripList_eq_nil_iff (l : List Char) (c : Char) :
    rstripList l c = [] ↔ ∀ x ∈ l, x = c := by
  unfold rstripList
  rw [List.reverse_eq_nil_iff, List.dropWhile_eq_nil_iff]
  constructor
  · intro h x hx
    have := h x (List.mem_reverse.mpr hx)
    simpa using this
  · intro h x hx
    simp [h x (List.mem_reverse.mp hx)]

theorem rstripList_append_replicate (l : List Char) (k : ℕ) (c : Char) :
    rstripList (l ++ List.replicate k c) c = rstripList l c := by
  unfold rstripList
  rw [List.reverse_append, List.reverse_replicate, List.dropWhile_append_of_pos]
  intro a ha
  simp [List.eq_of_mem_replicate ha]

theorem rstripList_append_of_ne_nil (l₁ l₂ : List Char) (c : Char)
    (h : rstripList l₂ c ≠ []) :
    rstripList (l₁ ++ l₂) c = l₁ ++ rstripList l₂ c := by
  have hne : l₂.reverse.dropWhile (fun x => decide (x = c)) ≠ [] := by
    intro hnil
    apply h
    unfold rstripList
    rw [hnil, List.reverse_nil]
  unfold rstripList
  rw [List.reverse_append, List.dropWhile_append]
  rw [if_neg (by simpa [List.isEmpty_iff] using hne)]
  rw [List.reverse_append, List.reverse_reverse]

theorem rstripList_eq_self (l : List Char) (c : Char) (h : l.getLast? ≠ some c) :
    rstripList l c = l := by
  unfold rstripList
  cases hl : l.reverse with
  | nil =>
    have : l = [] := by simpa using congrArg List.reverse hl
    simp [this]
  | cons a t =>
    have ha : ¬(a = c) := by
      intro hac
      apply h
      rw [← List.head?_reverse, hl, hac]
      rfl
    rw [List.dropWhile_cons_of_neg (by simpa using ha), ← hl, List.reverse_reverse]

/-! ### Digit-string lemmas for `natChars` -/

theorem char_toNat_inj {a b : Char} (h : a.toNat = b.toNat) : a = b := by
  rw [← Char.ofNat_toNat a, ← Char.ofNat_toNat b, h]

theorem digChar_toNat {d : ℕ} (h : d < 10) : (digChar d).toNat = 48 + d := by
  interval_cases d <;> rfl

theorem isDigitChar_digChar {d : ℕ} (h : d < 10) : isDigitChar (digChar d) = true := by
  interval_cases d <;> rfl

theorem natCharsAux_eq_digits (fuel n : ℕ) (h : n ≤ fuel) :
    natCharsAux fuel n = (Nat.digits 10 n).reverse.map digChar := by
  induction fuel generalizing n with
  | zero =>
    have hn : n = 0 := Nat.le_zero.mp h
    subst hn
    simp [natCharsAux]
  | succ fuel ih =>
    by_cases hn : n = 0
    · subst hn
      simp [natCharsAux]
    · have hstep : natCharsAux (fuel + 1) n =
          natCharsAux fuel (n / 10) ++ [digChar (n % 10)] := by
        simp [natCharsAux, hn]
      have hdiv : n / 10 ≤ fuel := by
        have h1 : n / 10 < n := Nat.div_lt_self (Nat.pos_of_ne_zero hn) (by norm_num)
        omega
      rw [hstep, ih _ hdiv, @Nat.digits_def' 10 (by norm_num) n (Nat.pos_of_ne_zero hn)]
      simp

theorem natChars_eq_digits (n : ℕ) :
    natChars n = if n = 0 then ['0'] else ((Nat.digits 10 n).reverse.map digChar) := by
  unfold natChars
  by_cases hn : n = 0
  · rw [if_pos hn, if_pos hn]
  · rw [if_neg hn, if_neg hn, natCharsAux_eq_digits n n (le_refl n)]

theorem natChars_ne_nil (n : ℕ) : natChars n ≠ [] := by
  rw [natChars_eq_digits]
  split
  · simp
  · rename_i h
    simp only [Ne, List.map_eq_nil_iff, List.reverse_eq_nil_iff]
    exact Nat.digits_ne_nil_iff_ne_zero.mpr h

theorem mem_natChars_isDigit {n : ℕ} {c : Char} (h : c ∈ natChars n) :
    isDigitChar c = true := by
  rw [natChars_eq_digits] at h
  split at h
  · simp only [List.mem_singleton] at h
    subst h
    rfl
  · simp only [List.mem_map, List.mem_reverse] at h
    obtain ⟨d, hd, rfl⟩ := h
    exact isDigitChar_digChar (Nat.digits_lt_base (by norm_num) hd)

theorem digitVal_map_digChar (L : List ℕ) (hL : ∀ d ∈ L, d < 10) :
    digitVal ((L.map digChar).reverse) = Nat.ofDigits 10 L := by
  induction L with
  | nil => simp [digitVal_nil, Nat.ofDigits_nil]
  | cons d T ih =>
    rw [List.map_cons, List.reverse_cons, digitVal_concat,
      ih (fun x hx => hL x (List.mem_cons_of_mem d hx)),
      digChar_toNat (hL d (List.mem_cons_self d T)), Nat.ofDigits_cons]
    omega

theorem digitVal_natChars (n : ℕ) : digitVal (natChars n) = n := by
  rw [natChars_eq_digits]
  split
  · rename_i h
    subst h
    rfl
  · have : (List.map digChar (Nat.digits 10 n).reverse) =
        ((Nat.digits 10 n).map digChar).reverse := by
      rw [List.map_reverse]
    rw [this, digitVal_map_digChar _ (fun d hd => Nat.digits_lt_base (by norm_num) hd),
      Nat.ofDigits_digits]

theorem natChars_length {n : ℕ} (h : n ≠ 0) :
    (natChars n).length = Nat.log 10 n + 1 := by
  rw [natChars_eq_digits, if_neg h]
  simp [Nat.digits_len 10 n (by norm_num) h]

theorem length_natChars_le {I : List Char} (hdig : ∀ c ∈ I, isDigitChar c = true)
    (hne : I ≠ []) : (natChars (digitVal I)).length ≤ I.length := by
  by_cases h0 : digitVal I = 0
  · rw [h0]
    have h1 : natChars 0 = ['0'] := rfl
    rw [h1]
    simpa using List.length_pos.mpr hne
  · rw [natChars_length h0]
    have hlt : digitVal I < 10 ^ I.length := digitVal_lt hdig
    have := Nat.log_lt_of_lt_pow h0 hlt
    omega

theorem rstrip_natChars_ne_nil {n : ℕ} (h : n ≠ 0) :
    rstripList (natChars n) '0' ≠ [] := by
  rw [Ne, rstripList_eq_nil_iff]
  intro hall
  apply h
  have h1 : natChars n = List.replicate (natChars n).length '0' :=
    List.eq_replicate_of_mem hall
  have h2 : digitVal (natChars n) = 0 := by
    rw [h1, digitVal_replicate_zero]
  rw [← digitVal_natChars n]
  exact h2

theorem digit_ne_zero_char_toNat {c : Char} (hd : isDigitChar c = true) (h : c ≠ '0') :
    c.toNat - 48 ≠ 0 := by
  intro h0
  apply h
  apply char_toNat_inj
  unfold isDigitChar at hd
  simp only [Bool.and_eq_true, decide_eq_true_eq] at hd
  show c.toNat = 48
  omega

theorem ten_not_dvd_of_getLast_ne {F : List Char} (hne : F ≠ [])
    (hdig : ∀ c ∈ F, isDigitChar c = true) (hlast : F.getLast? ≠ some '0') :
    ¬(10 ∣ digitVal F) := by
  cases hF : F.reverse with
  | nil =>
    exact absurd (by simpa using congrArg List.reverse hF) hne
  | cons c t =>
    have hFeq : F = t.reverse ++ [c] := by
      have := congrArg List.reverse hF
      rw [List.reverse_reverse] at this
      simpa using this
    have hcF : c ∈ F := by
      rw [hFeq]
      simp
    have hc : c ≠ '0' := by
      intro hc0
      apply hlast
      rw [hFeq, List.getLast?_concat, hc0]
    have hmod : digitVal F % 10 = c.toNat - 48 := by
      rw [hFeq]
      exact digitVal_concat_mod_ten _ _ (hdig c hcF)
    intro hdvd
    have hz : digitVal F % 10 = 0 := Nat.mod_eq_zero_of_dvd hdvd
    exact digit_ne_zero_char_toNat (hdig c hcF) hc (by omega)

/-! ### Structure of the fixed-point rendering -/

theorem padLeft9_length {l : List Char} (h : l.length ≤ 9) : (padLeft9 l).length = 9 := by
  unfold padLeft9
  rw [List.length_append, List.length_replicate]
  omega

theorem digitVal_padLeft9 (l : List Char) : digitVal (padLeft9 l) = digitVal l := by
  unfold padLeft9
  rw [digitVal_append, digitVal_replicate_zero]
  simp

theorem mem_padLeft9_digit {l : List Char} (hl : ∀ c ∈ l, isDigitChar c = true) :
    ∀ c ∈ padLeft9 l, isDigitChar c = true := by
  intro c hc
  unfold padLeft9 at hc
  rcases List.mem_append.mp hc with h | h
  · rw [List.eq_of_mem_replicate h]
    rfl
  · exact hl c h

theorem rstripList_subset (l : List Char) (c : Char) : rstripList l c ⊆ l := by
  intro x hx
  unfold rstripList at hx
  rw [List.mem_reverse] at hx
  exact List.mem_reverse.mp ((List.dropWhile_sublist _).subset hx)

theorem natChars_length_le_nine {f : ℕ} (h : f < 10 ^ 9) : (natChars f).length ≤ 9 := by
  by_cases hf : f = 0
  · subst hf
    norm_num [natChars, natCharsAux]
  · rw [natChars_length hf]
    have := Nat.log_lt_of_lt_pow hf h
    omega

theorem digit_ne_dot {c : Char} (h : isDigitChar c = true) : c ≠ '.' := by
  intro hEq
  rw [hEq] at h
  exact absurd h (by decide)

theorem formatFixed9Chars_finite (neg : Bool) (num : ℕ) (exp : ℤ) :
    formatFixed9Chars (.finite neg num exp) =
      (if neg then ['-'] else []) ++ natChars (scaled9 num exp / 10 ^ 9) ++
        '.' :: padLeft9 (natChars (scaled9 num exp % 10 ^ 9)) := rfl

theorem scaled9_zero (exp : ℤ) : scaled9 0 exp = 0 := by
  unfold scaled9 halfEvenDiv
  split
  · simp
  · simp

theorem pyFormatChars_finite (neg : Bool) (num : ℕ) (exp : ℤ) :
    pyFormatChars (.finite neg num exp) =
      (if neg then ['-'] else []) ++ canonChars (scaled9 num exp) := by
  have hfm : scaled9 num exp % 10 ^ 9 < 10 ^ 9 := Nat.mod_lt _ (by norm_num)
  unfold pyFormatChars
  rw [formatFixed9Chars_finite]
  set sg : List Char := if neg then ['-'] else [] with hsg
  set i := scaled9 num exp / 10 ^ 9 with hi
  set f := scaled9 num exp % 10 ^ 9 with hf
  have hIlast : ∃ c, (natChars i).getLast? = some c ∧ c ∈ natChars i := by
    have hne := natChars_ne_nil i
    exact ⟨(natChars i).getLast hne, List.getLast?_eq_getLast_of_ne_nil hne,
      List.getLast_mem hne⟩
  obtain ⟨c, hc1, hc2⟩ := hIlast
  have hcdot : c ≠ '.' := digit_ne_dot (mem_natChars_isDigit hc2)
  by_cases hf0 : f = 0
  · rw [hf0]
    have hp : padLeft9 (natChars 0) = List.replicate 9 '0' := rfl
    rw [hp]
    have h1 : sg ++ natChars i ++ '.' :: List.replicate 9 '0' =
        ((sg ++ natChars i) ++ ['.']) ++ List.replicate 9 '0' := by
      simp
    rw [h1, rstripList_append_replicate]
    have h2 : rstripList ((sg ++ natChars i) ++ ['.']) '0' =
        (sg ++ natChars i) ++ ['.'] := by
      apply rstripList_eq_self
      rw [List.getLast?_concat]
      simp
    rw [h2]
    have h3 : (sg ++ natChars i) ++ ['.'] =
        (sg ++ natChars i) ++ List.replicate 1 '.' := rfl
    rw [h3, rstripList_append_replicate]
    have h4 : rstripList (sg ++ natChars i) '.' = sg ++ natChars i := by
      apply rstripList_eq_self
      rw [List.getLast?_append, hc1]
      simp only [Option.or_some, Ne, Option.some.injEq]
      exact hcdot
    rw [h4]
    unfold canonChars
    rw [← hi, ← hf, if_pos hf0]
    simp
  · have hR : rstripList (natChars f) '0' ≠ [] := rstrip_natChars_ne_nil hf0
    have hRallsub : rstripList (natChars f) '0' ⊆ natChars f := rstripList_subset _ _
    have hRlast : ∃ d, (rstripList (natChars f) '0').getLast? = some d ∧
        d ∈ natChars f := by
      refine ⟨(rstripList (natChars f) '0').getLast hR,
        List.getLast?_eq_getLast_of_ne_nil hR, ?_⟩
      exact hRallsub (List.getLast_mem hR)
    obtain ⟨d, hd1, hd2⟩ := hRlast
    have hpd : padLeft9 (natChars f) =
        List.replicate (9 - (natChars f).length) '0' ++ natChars f := rfl
    have h1 : sg ++ natChars i ++ '.' :: padLeft9 (natChars f) =
        (sg ++ natChars i ++ '.' :: List.replicate (9 - (natChars f).length) '0') ++
          natChars f := by
      rw [hpd]
      simp
    rw [h1, rstripList_append_of_ne_nil _ _ _ hR]
    have h2 : rstripList
        ((sg ++ natChars i ++ '.' :: List.replicate (9 - (natChars f).length) '0') ++
          rstripList (natChars f) '0') '.' =
        (sg ++ natChars i ++ '.' :: List.replicate (9 - (natChars f).length) '0') ++
          rstripList (natChars f) '0' := by
      apply rstripList_eq_self
      rw [List.getLast?_append, hd1]
      simp only [Option.or_some, Ne, Option.some.injEq]
      exact digit_ne_dot (mem_natChars_isDigit hd2)
    rw [h2]
    unfold canonChars
    rw [← hi, ← hf, if_neg hf0, hpd, rstripList_append_of_ne_nil _ _ _ hR]
    simp

/-! ### The stripped rendering as a canonical numeral -/

theorem frac_decomp {f : ℕ} (hf : f ≠ 0) (hfl : f < 10 ^ 9) :
    ∃ k, (rstripList (padLeft9 (natChars f)) '0').length + k = 9 ∧
      f = digitVal (rstripList (padLeft9 (natChars f)) '0') * 10 ^ k ∧
      rstripList (padLeft9 (natChars f)) '0' ≠ [] ∧
      (∀ c ∈ rstripList (padLeft9 (natChars f)) '0', isDigitChar c = true) ∧
      ¬(10 ∣ digitVal (rstripList (padLeft9 (natChars f)) '0')) := by
  have hPlen : (padLeft9 (natChars f)).length = 9 :=
    padLeft9_length (natChars_length_le_nine hfl)
  have hPdig : ∀ c ∈ padLeft9 (natChars f), isDigitChar c = true :=
    mem_padLeft9_digit (fun c hc => mem_natChars_isDigit hc)
  have hPval : digitVal (padLeft9 (natChars f)) = f := by
    rw [digitVal_padLeft9, digitVal_natChars]
  have hFne : rstripList (padLeft9 (natChars f)) '0' ≠ [] := by
    show rstripList (List.replicate (9 - (natChars f).length) '0' ++ natChars f) '0' ≠ []
    rw [rstripList_append_of_ne_nil _ _ _ (rstrip_natChars_ne_nil hf)]
    simp [rstrip_natChars_ne_nil hf]
  have hFdig : ∀ c ∈ rstripList (padLeft9 (natChars f)) '0', isDigitChar c = true :=
    fun c hc => hPdig c (rstripList_subset _ '0' hc)
  have hlast : (rstripList (padLeft9 (natChars f)) '0').getLast? ≠ some '0' :=
    rstripList_getLast?_ne _ '0'
  have hdvd : ¬(10 ∣ digitVal (rstripList (padLeft9 (natChars f)) '0')) :=
    ten_not_dvd_of_getLast_ne hFne hFdig hlast
  obtain ⟨k, hk⟩ := rstrip_decomp (padLeft9 (natChars f)) '0'
  refine ⟨k, ?_, ?_, hFne, hFdig, hdvd⟩
  · rw [← hPlen]
    conv_rhs => rw [hk]
    rw [List.length_append, List.length_replicate]
  · conv_lhs => rw [← hPval, hk]
    rw [digitVal_append, digitVal_replicate_zero, List.length_replicate, Nat.add_zero]

theorem int_frac_unique {a b : ℕ} {x y : ℚ} (hx0 : 0 ≤ x) (hx1 : x < 1)
    (hy0 : 0 ≤ y) (hy1 : y < 1) (h : (a : ℚ) + x = (b : ℚ) + y) :
    a = b ∧ x = y := by
  rcases Nat.lt_trichotomy a b with h1 | h1 | h1
  · exfalso
    have hb : (a : ℚ) + 1 ≤ (b : ℚ) := by exact_mod_cast h1
    linarith
  · subst h1
    exact ⟨rfl, by linarith⟩
  · exfalso
    have hb : (b : ℚ) + 1 ≤ (a : ℚ) := by exact_mod_cast h1
    linarith

theorem digitFrac_nonneg (F : List Char) :
    0 ≤ (digitVal F : ℚ) / (10 : ℚ) ^ F.length := by
  positivity

theorem digitFrac_lt_one {F : List Char} (h : ∀ c ∈ F, isDigitChar c = true) :
    (digitVal F : ℚ) / (10 : ℚ) ^ F.length < 1 := by
  rw [div_lt_one (by positivity)]
  exact_mod_cast digitVal_lt h

theorem canon_split (m : ℕ) :
    10 ^ 9 * (m / 10 ^ 9) + m % 10 ^ 9 = m := Nat.div_add_mod m (10 ^ 9)

theorem denotesPlain_canon (m : ℕ) :
    DenotesPlain (String.mk (canonChars m)) ((m : ℚ) / 10 ^ 9) := by
  have hfm : m % 10 ^ 9 < 10 ^ 9 := Nat.mod_lt _ (by norm_num)
  by_cases hf : m % 10 ^ 9 = 0
  · refine ⟨natChars (m / 10 ^ 9), [], natChars_ne_nil _,
      fun c hc => mem_natChars_isDigit hc, by simp, Or.inl ⟨?_, rfl⟩, ?_⟩
    · show canonChars m = natChars (m / 10 ^ 9)
      unfold canonChars
      rw [if_pos hf]
      simp
    · rw [digitVal_natChars, digitVal_nil]
      have hmNat : m = 10 ^ 9 * (m / 10 ^ 9) := by
        conv_lhs => rw [← canon_split m, hf]
        exact Nat.add_zero _
      have hm : (m : ℚ) = 10 ^ 9 * ((m / 10 ^ 9 : ℕ) : ℚ) := by exact_mod_cast hmNat
      rw [hm]
      field_simp
  · obtain ⟨k, hk1, hk2, hFne, hFdig, _⟩ := frac_decomp hf hfm
    refine ⟨natChars (m / 10 ^ 9), rstripList (padLeft9 (natChars (m % 10 ^ 9))) '0',
      natChars_ne_nil _, fun c hc => mem_natChars_isDigit hc, hFdig, Or.inr ?_, ?_⟩
    · show canonChars m = _
      unfold canonChars
      rw [if_neg hf]
    · rw [digitVal_natChars]
      have hmNat : m = 10 ^ 9 * (m / 10 ^ 9) +
          digitVal (rstripList (padLeft9 (natChars (m % 10 ^ 9))) '0') * 10 ^ k := by
        conv_lhs => rw [← canon_split m, hk2]
      have hm : (m : ℚ) = 10 ^ 9 * ((m / 10 ^ 9 : ℕ) : ℚ) +
          (digitVal (rstripList (padLeft9 (natChars (m % 10 ^ 9))) '0') : ℚ) * 10 ^ k := by
        exact_mod_cast hmNat
      have h9 : (10 : ℚ) ^ (9 : ℕ) =
          (10 : ℚ) ^ (rstripList (padLeft9 (natChars (m % 10 ^ 9))) '0').length *
            (10 : ℚ) ^ k := by
        rw [← pow_add, hk1]
      rw [hm, h9]
      have hpow : ((10 : ℚ) ^ (rstripList (padLeft9 (natChars (m % 10 ^ 9))) '0').length) ≠ 0 := by
        positivity
      have hpk : ((10 : ℚ) ^ k) ≠ 0 := by positivity
      field_simp
      ring

theorem strippedNumeral_canon (m : ℕ) : StrippedNumeral (String.mk (canonChars m)) := by
  by_cases hf : m % 10 ^ 9 = 0
  · refine ⟨natChars (m / 10 ^ 9), [], natChars_ne_nil _,
      fun c hc => mem_natChars_isDigit hc, by simp, Or.inl ⟨?_, rfl⟩⟩
    show canonChars m = natChars (m / 10 ^ 9)
    unfold canonChars
    rw [if_pos hf]
    simp
  · have hfm : m % 10 ^ 9 < 10 ^ 9 := Nat.mod_lt _ (by norm_num)
    obtain ⟨k, hk1, hk2, hFne, hFdig, _⟩ := frac_decomp hf hfm
    refine ⟨natChars (m / 10 ^ 9), rstripList (padLeft9 (natChars (m % 10 ^ 9))) '0',
      natChars_ne_nil _, fun c hc => mem_natChars_isDigit hc, hFdig,
      Or.inr ⟨?_, hFne, rstripList_getLast?_ne _ '0'⟩⟩
    show canonChars m = _
    unfold canonChars
    rw [if_neg hf]

theorem canonChars_length_zero {m : ℕ} (hf : m % 10 ^ 9 = 0) :
    (canonChars m).length = (natChars (m / 10 ^ 9)).length := by
  unfold canonChars
  rw [if_pos hf]
  simp

theorem canonChars_length_pos {m : ℕ} (hf : m % 10 ^ 9 ≠ 0) :
    (canonChars m).length = (natChars (m / 10 ^ 9)).length + 1 +
      (rstripList (padLeft9 (natChars (m % 10 ^ 9))) '0').length := by
  unfold canonChars
  rw [if_neg hf]
  simp only [List.length_append, List.length_cons]
  omega

theorem not_dvd_length_le {a b x y : ℕ} (hcross : a * 10 ^ x = b * 10 ^ y)
    (hnd : ¬(10 ∣ a)) : y ≤ x := by
  by_contra hlt
  push_neg at hlt
  apply hnd
  have h1 : (10 : ℕ) ^ y = 10 ^ x * 10 ^ (y - x) := by
    rw [← pow_add]
    congr 1
    omega
  rw [h1] at hcross
  have h2 : a = b * 10 ^ (y - x) := by
    have h10 : 0 < (10 : ℕ) ^ x := by positivity
    apply Nat.eq_of_mul_eq_mul_right h10
    rw [hcross]
    ring
  rw [h2]
  exact Dvd.dvd.mul_left (dvd_pow_self 10 (by omega)) b

theorem canonChars_minimal (m : ℕ) (s : String)
    (hd : DenotesPlain s ((m : ℚ) / 10 ^ 9)) :
    (canonChars m).length ≤ s.data.length := by
  obtain ⟨I, F, hIne, hIdig, hFdig, hform, hval⟩ := hd
  have hfm : m % 10 ^ 9 < 10 ^ 9 := Nat.mod_lt _ (by norm_num)
  have hfr0 : (0 : ℚ) ≤ (digitVal F : ℚ) / (10 : ℚ) ^ F.length := digitFrac_nonneg F
  have hfr1 : (digitVal F : ℚ) / (10 : ℚ) ^ F.length < 1 := digitFrac_lt_one hFdig
  by_cases hf : m % 10 ^ 9 = 0
  · have hmNat : m = 10 ^ 9 * (m / 10 ^ 9) := by
      conv_lhs => rw [← canon_split m, hf]
      exact Nat.add_zero _
    have hq : (m : ℚ) / 10 ^ 9 = ((m / 10 ^ 9 : ℕ) : ℚ) := by
      rw [show (m : ℚ) = 10 ^ 9 * ((m / 10 ^ 9 : ℕ) : ℚ) from by exact_mod_cast hmNat]
      field_simp
    rw [hq] at hval
    have h' : ((m / 10 ^ 9 : ℕ) : ℚ) + 0 = (digitVal I : ℚ) +
        (digitVal F : ℚ) / (10 : ℚ) ^ F.length := by
      rw [add_zero]
      exact hval
    obtain ⟨hIeq, -⟩ := int_frac_unique (le_refl (0 : ℚ)) (by norm_num) hfr0 hfr1 h'
    have hlen2 : (natChars (m / 10 ^ 9)).length ≤ I.length := by
      rw [hIeq]
      exact length_natChars_le hIdig hIne
    rcases hform with ⟨hs, -⟩ | hs
    · rw [canonChars_length_zero hf, hs]
      exact hlen2
    · rw [canonChars_length_zero hf, hs, List.length_append, List.length_cons]
      omega
  · obtain ⟨k, hk1, hk2, hGne, hGdig, hdvd⟩ := frac_decomp hf hfm
    have hq : (m : ℚ) / 10 ^ 9 = ((m / 10 ^ 9 : ℕ) : ℚ) +
        (digitVal (rstripList (padLeft9 (natChars (m % 10 ^ 9))) '0') : ℚ) /
          (10 : ℚ) ^ (rstripList (padLeft9 (natChars (m % 10 ^ 9))) '0').length := by
      have hmNat : m = 10 ^ 9 * (m / 10 ^ 9) +
          digitVal (rstripList (padLeft9 (natChars (m % 10 ^ 9))) '0') * 10 ^ k := by
        conv_lhs => rw [← canon_split m, hk2]
      have hm' : (m : ℚ) = 10 ^ 9 * ((m / 10 ^ 9 : ℕ) : ℚ) +
          (digitVal (rstripList (padLeft9 (natChars (m % 10 ^ 9))) '0') : ℚ) * 10 ^ k := by
        exact_mod_cast hmNat
      have h9 : (10 : ℚ) ^ (9 : ℕ) =
          (10 : ℚ) ^ (rstripList (padLeft9 (natChars (m % 10 ^ 9))) '0').length *
            (10 : ℚ) ^ k := by
        rw [← pow_add, hk1]
      rw [hm', h9]
      field_simp
      ring
    rw [hq] at hval
    obtain ⟨hIeq, hfr⟩ :=
      int_frac_unique (digitFrac_nonneg _) (digitFrac_lt_one hGdig) hfr0 hfr1 hval
    have hGv0 : digitVal (rstripList (padLeft9 (natChars (m % 10 ^ 9))) '0') ≠ 0 :=
      fun h0 => hdvd (h0 ▸ dvd_zero 10)
    have hFv0 : digitVal F ≠ 0 := by
      intro h0
      rw [h0] at hfr
      simp only [Nat.cast_zero, zero_div] at hfr
      rw [div_eq_zero_iff] at hfr
      rcases hfr with h1 | h1
      · exact hGv0 (by exact_mod_cast h1)
      · exact absurd h1 (by positivity)
    have hFnonnil : F ≠ [] := by
      intro h0
      apply hFv0
      rw [h0]
      rfl
    rcases hform with ⟨hs, hF0⟩ | hs
    · exact absurd hF0 hFnonnil
    · have hcross : digitVal (rstripList (padLeft9 (natChars (m % 10 ^ 9))) '0') *
          10 ^ F.length = digitVal F *
          10 ^ (rstripList (padLeft9 (natChars (m % 10 ^ 9))) '0').length := by
        have h' := hfr
        field_simp at h'
        exact_mod_cast h'
      have hlenF : (rstripList (padLeft9 (natChars (m % 10 ^ 9))) '0').length ≤
          F.length := not_dvd_length_le hcross hdvd
      have hIlen : (natChars (m / 10 ^ 9)).length ≤ I.length := by
        rw [hIeq]
        exact length_natChars_le hIdig hIne
      rw [canonChars_length_pos hf, hs, List.length_append, List.length_cons]
      omega

/-! ### Corollaries on the price rendering -/

theorem pyFormatChars_zero (neg : Bool) (exp : ℤ) :
    pyFormatChars (.finite neg 0 exp) = (if neg then ['-'] else []) ++ ['0'] := by
  rw [pyFormatChars_finite, scaled9_zero]
  rfl

theorem pyFormatPrice_posZero (exp : ℤ) : pyFormatPrice (.finite false 0 exp) = "0" := by
  unfold pyFormatPrice
  rw [pyFormatChars_zero]
  rfl

theorem pyFormatPrice_negZero (exp : ℤ) : pyFormatPrice (.finite true 0 exp) = "-0" := by
  unfold pyFormatPrice
  rw [pyFormatChars_zero]
  rfl

theorem pyFormatPrice_inf : pyFormatPrice (.infinity false) = "Infinity" := by
  rfl

theorem pyFormatPrice_nonneg_stripped (num : ℕ) (exp : ℤ) :
    StrippedNumeral (pyFormatPrice (.finite false num exp)) := by
  unfold pyFormatPrice
  rw [pyFormatChars_finite]
  simpa using strippedNumeral_canon (scaled9 num exp)

theorem pyFormatPrice_denotes (num : ℕ) (exp : ℤ) :
    DenotesPlain (pyFormatPrice (.finite false num exp))
      ((scaled9 num exp : ℚ) / 10 ^ 9) := by
  unfold pyFormatPrice
  rw [pyFormatChars_finite]
  simpa using denotesPlain_canon (scaled9 num exp)

theorem pyFormatPrice_minimal (num : ℕ) (exp : ℤ) (s : String)
    (hd : DenotesPlain s ((scaled9 num exp : ℚ) / 10 ^ 9)) :
    (pyFormatPrice (.finite false num exp)).length ≤ s.length := by
  show (pyFormatChars (.finite false num exp)).length ≤ s.data.length
  rw [pyFormatChars_finite]
  simpa using canonChars_minimal (scaled9 num exp) s hd

/-! ### Stepping lemmas for the price-extraction loop -/

theorem processPrices_nil {V : Type} (t : Table) (g : V → Except String String)
    (pm : String → String) : processPrices t g [] pm = .ok pm := rfl

theorem processPrices_cons_none {V : Type} (t : Table) (g : V → Except String String)
    (addr : String) (v : V) (rest : List (String × V)) (pm : String → String)
    (h : revLookup t (lowerStr addr) = none) :
    processPrices t g ((addr, v) :: rest) pm = processPrices t g rest pm := by
  simp only [processPrices, h]

theorem processPrices_cons_rate_error {V : Type} (t : Table)
    (g : V → Except String String) (addr : String) (v : V) (rest : List (String × V))
    (pm : String → String) (s e : String)
    (h : revLookup t (lowerStr addr) = some s) (hg : g v = .error e) :
    processPrices t g ((addr, v) :: rest) pm = .error e := by
  simp only [processPrices, h, hg]

theorem processPrices_cons_parse_none {V : Type} (t : Table)
    (g : V → Except String String) (addr : String) (v : V) (rest : List (String × V))
    (pm : String → String) (s rate : String)
    (h : revLookup t (lowerStr addr) = some s) (hg : g v = .ok rate)
    (hp : parseDecimal rate = none) :
    processPrices t g ((addr, v) :: rest) pm =
      .error "InvalidOperation: invalid decimal string" := by
  simp only [processPrices, h, hg, hp]

theorem processPrices_cons_lt_error {V : Type} (t : Table)
    (g : V → Except String String) (addr : String) (v : V) (rest : List (String × V))
    (pm : String → String) (s rate e : String) (price : Dec)
    (h : revLookup t (lowerStr addr) = some s) (hg : g v = .ok rate)
    (hp : parseDecimal rate = some price) (hlt : decimalLt0 price = .error e) :
    processPrices t g ((addr, v) :: rest) pm = .error e := by
  simp only [processPrices, h, hg, hp, hlt]

theorem processPrices_cons_neg {V : Type} (t : Table)
    (g : V → Except String String) (addr : String) (v : V) (rest : List (String × V))
    (pm : String → String) (s rate : String) (price : Dec)
    (h : revLookup t (lowerStr addr) = some s) (hg : g v = .ok rate)
    (hp : parseDecimal rate = some price) (hlt : decimalLt0 price = .ok true) :
    processPrices t g ((addr, v) :: rest) pm = .error "Negative number returned" := by
  simp only [processPrices, h, hg, hp, hlt]

theorem processPrices_cons_store {V : Type} (t : Table)
    (g : V → Except String String) (addr : String) (v : V) (rest : List (String × V))
    (pm : String → String) (s rate : String) (price : Dec)
    (h : revLookup t (lowerStr addr) = some s) (hg : g v = .ok rate)
    (hp : parseDecimal rate = some price) (hlt : decimalLt0 price = .ok false) :
    processPrices t g ((addr, v) :: rest) pm =
      processPrices t g rest (fun x => if x = s then pyFormatPrice price else pm x) := by
  simp only [processPrices, h, hg, hp, hlt]

theorem processPrices_ok_iff {V : Type} (t : Table) (g : V → Except String String)
    (entries : List (String × V)) (pm₁ pm₂ : String → String) :
    (∃ x, processPrices t g entries pm₁ = .ok x) ↔
      (∃ x, processPrices t g entries pm₂ = .ok x) := by
  induction entries generalizing pm₁ pm₂ with
  | nil => simp [processPrices_nil]
  | cons e rest ih =>
    obtain ⟨addr, v⟩ := e
    cases hrl : revLookup t (lowerStr addr) with
    | none =>
      rw [processPrices_cons_none t g addr v rest pm₁ hrl,
        processPrices_cons_none t g addr v rest pm₂ hrl]
      exact ih pm₁ pm₂
    | some s =>
      cases hg : g v with
      | error e =>
        rw [processPrices_cons_rate_error t g addr v rest pm₁ s e hrl hg,
          processPrices_cons_rate_error t g addr v rest pm₂ s e hrl hg]
      | ok rate =>
        cases hp : parseDecimal rate with
        | none =>
          rw [processPrices_cons_parse_none t g addr v rest pm₁ s rate hrl hg hp,
            processPrices_cons_parse_none t g addr v rest pm₂ s rate hrl hg hp]
        | some price =>
          cases hlt : decimalLt0 price with
          | error e =>
            rw [processPrices_cons_lt_error t g addr v rest pm₁ s rate e price hrl hg hp hlt,
              processPrices_cons_lt_error t g addr v rest pm₂ s rate e price hrl hg hp hlt]
          | ok b =>
            cases b with
            | true =>
              rw [processPrices_cons_neg t g addr v rest pm₁ s rate price hrl hg hp hlt,
                processPrices_cons_neg t g addr v rest pm₂ s rate price hrl hg hp hlt]
            | false =>
              rw [processPrices_cons_store t g addr v rest pm₁ s rate price hrl hg hp hlt,
                processPrices_cons_store t g addr v rest pm₂ s rate price hrl hg hp hlt]
              exact ih _ _

theorem processPrices_ok_shape {V : Type} (t : Table) (g : V → Except String String)
    (entries : List (String × V)) (pm0 pm : String → String)
    (h : processPrices t g entries pm0 = .ok pm) (s : String) :
    pm s = pm0 s ∨ ∃ p ∈ entries, ∃ rate price,
      revLookup t (lowerStr p.1) = some s ∧ g p.2 = .ok rate ∧
      parseDecimal rate = some price ∧ decimalLt0 price = .ok false ∧
      pm s = pyFormatPrice price := by
  induction entries generalizing pm0 with
  | nil =>
    rw [processPrices_nil] at h
    left
    rw [← Except.ok.inj h]
  | cons e rest ih =>
    obtain ⟨addr, v⟩ := e
    cases hrl : revLookup t (lowerStr addr) with
    | none =>
      rw [processPrices_cons_none t g addr v rest pm0 hrl] at h
      rcases ih pm0 h with hl | ⟨p, hp, hrest⟩
      · exact Or.inl hl
      · exact Or.inr ⟨p, List.mem_cons_of_mem _ hp, hrest⟩
    | some sym =>
      cases hg : g v with
      | error e =>
        rw [processPrices_cons_rate_error t g addr v rest pm0 sym e hrl hg] at h
        exact absurd h (by simp)
      | ok rate =>
        cases hp : parseDecimal rate with
        | none =>
          rw [processPrices_cons_parse_none t g addr v rest pm0 sym rate hrl hg hp] at h
          exact absurd h (by simp)
        | some price =>
          cases hlt : decimalLt0 price with
          | error e =>
            rw [processPrices_cons_lt_error t g addr v rest pm0 sym rate e price hrl hg hp hlt] at h
            exact absurd h (by simp)
          | ok b =>
            cases b with
            | true =>
              rw [processPrices_cons_neg t g addr v rest pm0 sym rate price hrl hg hp hlt] at h
              exact absurd h (by simp)
            | false =>
              rw [processPrices_cons_store t g addr v rest pm0 sym rate price hrl hg hp hlt] at h
              rcases ih _ h with hl | ⟨p, hpmem, hrest⟩
              · by_cases hssym : s = sym
                · subst hssym
                  rw [if_pos rfl] at hl
                  exact Or.inr ⟨(addr, v), List.mem_cons_self _ _,
                    rate, price, hrl, hg, hp, hlt, hl⟩
                · rw [if_neg hssym] at hl
                  exact Or.inl hl
              · exact Or.inr ⟨p, List.mem_cons_of_mem _ hpmem, hrest⟩

theorem processPrices_error_of_bad {V : Type} (t : Table) (g : V → Except String String)
    (entries : List (String × V)) (p : String × V) (hp : p ∈ entries) (s : String)
    (hrl : revLookup t (lowerStr p.1) = some s)
    (hbad : (∃ e, g p.2 = .error e) ∨ ∃ rate, g p.2 = .ok rate ∧
      (parseDecimal rate = none ∨ ∃ price, parseDecimal rate = some price ∧
        decimalLt0 price ≠ .ok false)) :
    ∀ pm, ∃ e, processPrices t g entries pm = .error e := by
  induction entries with
  | nil => exact absurd hp (List.not_mem_nil p)
  | cons q rest ih =>
    intro pm
    obtain ⟨addr, v⟩ := q
    rcases List.mem_cons.mp hp with hq | hq
    · subst hq
      rcases hbad with ⟨e, hge⟩ | ⟨rate, hgr, hb⟩
      · exact ⟨e, processPrices_cons_rate_error t g addr v rest pm s e hrl hge⟩
      · rcases hb with hpn | ⟨price, hps, hne⟩
        · exact ⟨_, processPrices_cons_parse_none t g addr v rest pm s rate hrl hgr hpn⟩
        · cases hlt : decimalLt0 price with
          | error e =>
            exact ⟨e, processPrices_cons_lt_error t g addr v rest pm s rate e price hrl hgr hps hlt⟩
          | ok b =>
            cases b with
            | true =>
              exact ⟨_, processPrices_cons_neg t g addr v rest pm s rate price hrl hgr hps hlt⟩
            | false => exact absurd hlt hne
    · cases hrl2 : revLookup t (lowerStr addr) with
      | none =>
        obtain ⟨e, he⟩ := ih hq pm
        exact ⟨e, by rw [processPrices_cons_none t g addr v rest pm hrl2]; exact he⟩
      | some sym =>
        cases hg : g v with
        | error e =>
          exact ⟨e, processPrices_cons_rate_error t g addr v rest pm sym e hrl2 hg⟩
        | ok rate =>
          cases hps : parseDecimal rate with
          | none =>
            exact ⟨_, processPrices_cons_parse_none t g addr v rest pm sym rate hrl2 hg hps⟩
          | some price =>
            cases hlt : decimalLt0 price with
            | error e =>
              exact ⟨e, processPrices_cons_lt_error t g addr v rest pm sym rate e price hrl2 hg hps hlt⟩
            | ok b =>
              cases b with
              | true =>
                exact ⟨_, processPrices_cons_neg t g addr v rest pm sym rate price hrl2 hg hps hlt⟩
              | false =>
                obtain ⟨e, he⟩ := ih hq (fun x => if x = sym then pyFormatPrice price else pm x)
                exact ⟨e, by
                  rw [processPrices_cons_store t g addr v rest pm sym rate price hrl2 hg hps hlt]
                  exact he⟩

theorem processPrices_ok_nomatch {V : Type} (t : Table) (g : V → Except String String)
    (entries : List (String × V)) (pm0 pm : String → String) (s : String)
    (h : processPrices t g entries pm0 = .ok pm)
    (hno : ∀ q ∈ entries, revLookup t (lowerStr q.1) ≠ some s) :
    pm s = pm0 s := by
  rcases processPrices_ok_shape t g entries pm0 pm h s with hl | ⟨p, hpmem, _, _, hrl, _⟩
  · exact hl
  · exact absurd hrl (hno p hpmem)

theorem processPrices_ok_last {V : Type} (t : Table) (g : V → Except String String)
    (pre post : List (String × V)) (addr : String) (v : V) (rate s : String)
    (price : Dec) (pm0 pm : String → String)
    (hrl : revLookup t (lowerStr addr) = some s) (hg : g v = .ok rate)
    (hps : parseDecimal rate = some price) (hlt : decimalLt0 price = .ok false)
    (hpost : ∀ q ∈ post, revLookup t (lowerStr q.1) ≠ some s)
    (h : processPrices t g (pre ++ (addr, v) :: post) pm0 = .ok pm) :
    pm s = pyFormatPrice price := by
  induction pre generalizing pm0 with
  | nil =>
    rw [List.nil_append,
      processPrices_cons_store t g addr v post pm0 s rate price hrl hg hps hlt] at h
    rw [processPrices_ok_nomatch t g post _ pm s h hpost, if_pos rfl]
  | cons q pre' ih =>
    obtain ⟨addr2, v2⟩ := q
    rw [List.cons_append] at h
    cases hrl2 : revLookup t (lowerStr addr2) with
    | none =>
      rw [processPrices_cons_none t g addr2 v2 _ pm0 hrl2] at h
      exact ih pm0 h
    | some sym =>
      cases hg2 : g v2 with
      | error e =>
        rw [processPrices_cons_rate_error t g addr2 v2 _ pm0 sym e hrl2 hg2] at h
        exact absurd h (by simp)
      | ok rate2 =>
        cases hp2 : parseDecimal rate2 with
        | none =>
          rw [processPrices_cons_parse_none t g addr2 v2 _ pm0 sym rate2 hrl2 hg2 hp2] at h
          exact absurd h (by simp)
        | some price2 =>
          cases hlt2 : decimalLt0 price2 with
          | error e =>
            rw [processPrices_cons_lt_error t g addr2 v2 _ pm0 sym rate2 e price2 hrl2 hg2 hp2 hlt2] at h
            exact absurd h (by simp)
          | ok b =>
            cases b with
            | true =>
              rw [processPrices_cons_neg t g addr2 v2 _ pm0 sym rate2 price2 hrl2 hg2 hp2 hlt2] at h
              exact absurd h (by simp)
            | false =>
              rw [processPrices_cons_store t g addr2 v2 _ pm0 sym rate2 price2 hrl2 hg2 hp2 hlt2] at h
              exact ih _ h

/-! ### Table-lookup lemmas -/

theorem lookupTable_nil (s : String) : lookupTable [] s = none := rfl

theorem lookupTable_cons (k v : String) (t : Table) (s : String) :
    lookupTable ((k, v) :: t) s = if k = s then some v else lookupTable t s := rfl

theorem lookupTable_mem {t : Table} {s v : String} (h : lookupTable t s = some v) :
    (s, v) ∈ t := by
  induction t with
  | nil => exact absurd h (by simp [lookupTable_nil])
  | cons p rest ih =>
    obtain ⟨k, w⟩ := p
    rw [lookupTable_cons] at h
    by_cases hk : k = s
    · subst hk
      rw [if_pos rfl] at h
      have hv := Option.some.inj h
      subst hv
      exact List.mem_cons_self _ _
    · rw [if_neg hk] at h
      exact List.mem_cons_of_mem _ (ih h)

theorem lookupTable_eq_none_iff {t : Table} {s : String} :
    lookupTable t s = none ↔ ∀ v, (s, v) ∉ t := by
  induction t with
  | nil => simp [lookupTable_nil]
  | cons p rest ih =>
    obtain ⟨k, w⟩ := p
    rw [lookupTable_cons]
    by_cases hk : k = s
    · subst hk
      rw [if_pos rfl]
      constructor
      · intro h
        exact absurd h (by simp)
      · intro h
        exact ((h w) (List.mem_cons_self _ _)).elim
    · rw [if_neg hk, ih]
      constructor
      · intro h v hv
        rcases List.mem_cons.mp hv with h1 | h1
        · exact absurd (congrArg Prod.fst h1).symm hk
        · exact h v h1
      · intro h v hv
        exact h v (List.mem_cons_of_mem _ hv)

theorem mem_lookupTable {t : Table} {s v : String}
    (hnd : (t.map Prod.fst).Nodup) (h : (s, v) ∈ t) : lookupTable t s = some v := by
  induction t with
  | nil => exact absurd h (List.not_mem_nil _)
  | cons p rest ih =>
    obtain ⟨k, w⟩ := p
    rw [List.map_cons, List.nodup_cons] at hnd
    obtain ⟨hknotin, hndrest⟩ := hnd
    rcases List.mem_cons.mp h with h1 | h1
    · have hks : s = k := congrArg Prod.fst h1
      have hvw : v = w := congrArg Prod.snd h1
      subst hks
      subst hvw
      rw [lookupTable_cons, if_pos rfl]
    · have hk : k ≠ s := by
        intro hkk
        apply hknotin
        rw [hkk]
        simpa using List.mem_map_of_mem Prod.fst h1
      rw [lookupTable_cons, if_neg hk]
      exact ih hndrest h1

theorem revLookup_mem {t : Table} {a s : String} (h : revLookup t a = some s) :
    ∃ v, (s, v) ∈ t ∧ lowerStr v = a := by
  unfold revLookup at h
  cases hf : t.reverse.find? (fun p => lowerStr p.2 == a) with
  | none =>
    rw [hf] at h
    exact absurd h (by simp)
  | some p =>
    rw [hf] at h
    have hp1 : p.1 = s := by simpa using h
    have hmem : p ∈ t.reverse := List.mem_of_find?_eq_some hf
    have hpred := List.find?_some hf
    refine ⟨p.2, ?_, by simpa using hpred⟩
    rw [← hp1]
    exact List.mem_reverse.mp hmem

theorem revLookup_none_of_no_key {t : Table} {a s : String}
    (h : lookupTable t s = none) : revLookup t a ≠ some s := by
  intro hr
  obtain ⟨v, hv, -⟩ := revLookup_mem hr
  exact lookupTable_eq_none_iff.mp h v hv

theorem find?_all_eq {α : Type} (l : List α) (pred : α → Bool) (x : α) (hx : x ∈ l)
    (hpx : pred x = true) (huniq : ∀ y ∈ l, pred y = true → y = x) :
    l.find? pred = some x := by
  induction l with
  | nil => exact absurd hx (List.not_mem_nil x)
  | cons y ys ih =>
    by_cases hpy : pred y = true
    · rw [List.find?_cons_of_pos _ hpy, huniq y (List.mem_cons_self y ys) hpy]
    · rw [List.find?_cons_of_neg _ (by simpa using hpy)]
      rcases List.mem_cons.mp hx with h1 | h1
      · subst h1
        exact absurd hpx hpy
      · exact ih h1 (fun z hz => huniq z (List.mem_cons_of_mem _ hz))

theorem revLookup_eq_some {t : Table} {a s av : String} (hmem : (s, av) ∈ t)
    (hlow : lowerStr av = a)
    (huniq : ∀ p ∈ t, lowerStr p.2 = a → p = (s, av)) :
    revLookup t a = some s := by
  unfold revLookup
  rw [find?_all_eq t.reverse _ (s, av) (List.mem_reverse.mpr hmem) (by simpa using hlow)
    (fun y hy hpy => huniq y (List.mem_reverse.mp hy) (by simpa using hpy))]
  rfl

/-! ### Address-collection lemmas -/

theorem collectAddrs1inch_eq_filterMap (t : Table) (symbols : List String) :
    collectAddrs1inch t symbols = symbols.filterMap (lookupTable t) := by
  induction symbols with
  | nil => rfl
  | cons s rest ih =>
    cases hl : lookupTable t s with
    | none => simp [collectAddrs1inch, List.filterMap_cons, hl, ih]
    | some a => simp [collectAddrs1inch, List.filterMap_cons, hl, ih]

theorem mem_insertAddr {acc : List String} {a x : String} :
    x ∈ insertAddr acc a ↔ x ∈ acc ∨ x = a := by
  unfold insertAddr
  split
  · rename_i hmem
    constructor
    · exact Or.inl
    · rintro (h | rfl)
      · exact h
      · exact hmem
  · simp

theorem insertAddr_nodup {acc : List String} {a : String} (h : acc.Nodup) :
    (insertAddr acc a).Nodup := by
  unfold insertAddr
  split
  · exact h
  · rename_i hmem
    simp [List.nodup_append, h, hmem]

theorem collectAddrsArkenAux_cons_none (t : Table) (acc : List String) (s : String)
    (rest : List String) (h : lookupTable t (aliasETH s) = none) :
    collectAddrsArkenAux t acc (s :: rest) = collectAddrsArkenAux t acc rest := by
  simp only [collectAddrsArkenAux, h]

theorem collectAddrsArkenAux_cons_some (t : Table) (acc : List String) (s a : String)
    (rest : List String) (h : lookupTable t (aliasETH s) = some a) :
    collectAddrsArkenAux t acc (s :: rest) =
      collectAddrsArkenAux t (insertAddr acc a) rest := by
  simp only [collectAddrsArkenAux, h]

theorem collectAddrsArkenAux_nodup (t : Table) (symbols : List String)
    (acc : List String) (h : acc.Nodup) :
    (collectAddrsArkenAux t acc symbols).Nodup := by
  induction symbols generalizing acc with
  | nil => exact h
  | cons s rest ih =>
    cases hl : lookupTable t (aliasETH s) with
    | none =>
      rw [collectAddrsArkenAux_cons_none t acc s rest hl]
      exact ih acc h
    | some a =>
      rw [collectAddrsArkenAux_cons_some t acc s a rest hl]
      exact ih _ (insertAddr_nodup h)

theorem collectAddrsArken_nodup (t : Table) (symbols : List String) :
    (collectAddrsArken t symbols).Nodup :=
  collectAddrsArkenAux_nodup t symbols [] List.nodup_nil

theorem mem_collectAddrsArkenAux (t : Table) (symbols : List String)
    (acc : List String) (x : String) :
    x ∈ collectAddrsArkenAux t acc symbols ↔
      x ∈ acc ∨ ∃ s ∈ symbols, lookupTable t (aliasETH s) = some x := by
  induction symbols generalizing acc with
  | nil => simp [collectAddrsArkenAux]
  | cons s rest ih =>
    cases hl : lookupTable t (aliasETH s) with
    | none =>
      rw [collectAddrsArkenAux_cons_none t acc s rest hl, ih]
      constructor
      · rintro (h | ⟨s2, hs2, hl2⟩)
        · exact Or.inl h
        · exact Or.inr ⟨s2, List.mem_cons_of_mem _ hs2, hl2⟩
      · rintro (h | ⟨s2, hs2, hl2⟩)
        · exact Or.inl h
        · rcases List.mem_cons.mp hs2 with rfl | hs3
          · rw [hl] at hl2
            exact absurd hl2 (by simp)
          · exact Or.inr ⟨s2, hs3, hl2⟩
    | some a =>
      rw [collectAddrsArkenAux_cons_some t acc s a rest hl, ih]
      constructor
      · rintro (h | ⟨s2, hs2, hl2⟩)
        · rcases mem_insertAddr.mp h with h1 | rfl
          · exact Or.inl h1
          · exact Or.inr ⟨s, List.mem_cons_self s rest, hl⟩
        · exact Or.inr ⟨s2, List.mem_cons_of_mem _ hs2, hl2⟩
      · rintro (h | ⟨s2, hs2, hl2⟩)
        · exact Or.inl (mem_insertAddr.mpr (Or.inl h))
        · rcases List.mem_cons.mp hs2 with rfl | hs3
          · rw [hl] at hl2
            exact Or.inl (mem_insertAddr.mpr (Or.inr (Option.some.inj hl2).symm))
          · exact Or.inr ⟨s2, hs3, hl2⟩

theorem mem_collectAddrsArken (t : Table) (symbols : List String) (x : String) :
    x ∈ collectAddrsArken t symbols ↔
      ∃ s ∈ symbols, lookupTable t (aliasETH s) = some x := by
  rw [collectAddrsArken, mem_collectAddrsArkenAux]
  simp

/-! ### Unfolding lemmas for `get_price_map` and `main` -/

theorem get_price_map_1inch_fetch_error {t : Table} {symbols : List String}
    {fetch : List String → Except String (List (String × String))} {e : String}
    (hf : fetch (collectAddrs1inch t symbols) = .error e) :
    get_price_map_1inch t symbols fetch = .error e := by
  simp only [get_price_map_1inch, hf]

theorem get_price_map_1inch_fetch_ok {t : Table} {symbols : List String}
    {fetch : List String → Except String (List (String × String))}
    {prices : List (String × String)}
    (hf : fetch (collectAddrs1inch t symbols) = .ok prices) :
    get_price_map_1inch t symbols fetch =
      processPrices t rate1inch prices (fun _ => "-") := by
  simp only [get_price_map_1inch, hf]

theorem get_price_map_1inch_ok_inv {t : Table} {symbols : List String}
    {fetch : List String → Except String (List (String × String))}
    {pm : String → String}
    (h : get_price_map_1inch t symbols fetch = .ok pm) :
    ∃ prices, fetch (collectAddrs1inch t symbols) = .ok prices ∧
      processPrices t rate1inch prices (fun _ => "-") = .ok pm := by
  cases hf : fetch (collectAddrs1inch t symbols) with
  | error e =>
    rw [get_price_map_1inch_fetch_error hf] at h
    exact absurd h (by simp)
  | ok prices =>
    rw [get_price_map_1inch_fetch_ok hf] at h
    exact ⟨prices, rfl, h⟩

theorem get_price_map_arken_fetch_ok {t : Table} {symbols : List String}
    {fetch : List String → Except String (List (String × ArkenData))}
    {prices : List (String × ArkenData)} {pm : String → String}
    (hf : fetch (collectAddrsArken t symbols) = .ok prices)
    (hp : processPrices t rateArken prices (fun _ => "-") = .ok pm) :
    get_price_map_arken t symbols fetch =
      if "ETH" ∈ symbols then .ok (fun s => if s = "ETH" then pm "WETH" else pm s)
      else .ok pm := by
  simp only [get_price_map_arken, hf, hp]

theorem get_price_map_arken_proc_error {t : Table} {symbols : List String}
    {fetch : List String → Except String (List (String × ArkenData))}
    {prices : List (String × ArkenData)} {e : String}
    (hf : fetch (collectAddrsArken t symbols) = .ok prices)
    (hp : processPrices t rateArken prices (fun _ => "-") = .error e) :
    get_price_map_arken t symbols fetch = .error e := by
  simp only [get_price_map_arken, hf, hp]

theorem get_price_map_arken_ok_inv {t : Table} {symbols : List String}
    {fetch : List String → Except String (List (String × ArkenData))}
    {pm2 : String → String}
    (h : get_price_map_arken t symbols fetch = .ok pm2) :
    ∃ prices pm, fetch (collectAddrsArken t symbols) = .ok prices ∧
      processPrices t rateArken prices (fun _ => "-") = .ok pm ∧
      ((¬("ETH" ∈ symbols) ∧ pm2 = pm) ∨
        ("ETH" ∈ symbols ∧ pm2 = fun s => if s = "ETH" then pm "WETH" else pm s)) := by
  cases hf : fetch (collectAddrsArken t symbols) with
  | error e =>
    rw [show get_price_map_arken t symbols fetch = .error e from by
      simp only [get_price_map_arken, hf]] at h
    exact absurd h (by simp)
  | ok prices =>
    cases hp : processPrices t rateArken prices (fun _ => "-") with
    | error e =>
      rw [get_price_map_arken_proc_error hf hp] at h
      exact absurd h (by simp)
    | ok pm =>
      rw [get_price_map_arken_fetch_ok hf hp] at h
      by_cases hETH : "ETH" ∈ symbols
      · rw [if_pos hETH] at h
        exact ⟨prices, pm, rfl, hp, Or.inr ⟨hETH, (Except.ok.inj h).symm⟩⟩
      · rw [if_neg hETH] at h
        exact ⟨prices, pm, rfl, hp, Or.inl ⟨hETH, (Except.ok.inj h).symm⟩⟩

theorem main1inch_gpm_ok {t : Table} {symbols : List String}
    {fetch : List String → Except String (List (String × String))}
    {pm : String → String}
    (h : get_price_map_1inch t symbols fetch = .ok pm) :
    main1inch t symbols fetch = .ok (String.intercalate "," (symbols.map pm)) := by
  simp only [main1inch, h]

theorem main1inch_gpm_error {t : Table} {symbols : List String}
    {fetch : List String → Except String (List (String × String))} {e : String}
    (h : get_price_map_1inch t symbols fetch = .error e) :
    main1inch t symbols fetch = .error e := by
  simp only [main1inch, h]

theorem main1inch_ok_inv {t : Table} {symbols : List String}
    {fetch : List String → Except String (List (String × String))} {out : String}
    (h : main1inch t symbols fetch = .ok out) :
    ∃ pm, get_price_map_1inch t symbols fetch = .ok pm ∧
      out = String.intercalate "," (symbols.map pm) := by
  cases hg : get_price_map_1inch t symbols fetch with
  | error e =>
    rw [main1inch_gpm_error hg] at h
    exact absurd h (by simp)
  | ok pm =>
    rw [main1inch_gpm_ok hg] at h
    exact ⟨pm, rfl, (Except.ok.inj h).symm⟩

theorem mainArken_gpm_ok {t : Table} {symbols : List String}
    {fetch : List String → Except String (List (String × ArkenData))}
    {pm : String → String}
    (h : get_price_map_arken t symbols fetch = .ok pm) :
    mainArken t symbols fetch = .ok (String.intercalate "," (symbols.map pm)) := by
  simp only [mainArken, h]

theorem mainArken_gpm_error {t : Table} {symbols : List String}
    {fetch : List String → Except String (List (String × ArkenData))} {e : String}
    (h : get_price_map_arken t symbols fetch = .error e) :
    mainArken t symbols fetch = .error e := by
  simp only [mainArken, h]

theorem mainArken_ok_inv {t : Table} {symbols : List String}
    {fetch : List String → Except String (List (String × ArkenData))} {out : String}
    (h : mainArken t symbols fetch = .ok out) :
    ∃ pm, get_price_map_arken t symbols fetch = .ok pm ∧
      out = String.intercalate "," (symbols.map pm) := by
  cases hg : get_price_map_arken t symbols fetch with
  | error e =>
    rw [mainArken_gpm_error hg] at h
    exact absurd h (by simp)
  | ok pm =>
    rw [mainArken_gpm_ok hg] at h
    exact ⟨pm, rfl, (Except.ok.inj h).symm⟩

/-! ### Field-shape lemmas -/

theorem processPrices_default_shape {V : Type} (t : Table)
    (g : V → Except String String) (prices : List (String × V)) (pm : String → String)
    (h : processPrices t g prices (fun _ => "-") = .ok pm) (s : String) :
    pm s = "-" ∨ ∃ price, decimalLt0 price = .ok false ∧ pm s = pyFormatPrice price := by
  rcases processPrices_ok_shape t g prices _ pm h s with hl | ⟨p, -, rate, price, -, -, -, hlt, heq⟩
  · exact Or.inl hl
  · exact Or.inr ⟨price, hlt, heq⟩

theorem mem_canonChars {m : ℕ} {c : Char} (h : c ∈ canonChars m) :
    isDigitChar c = true ∨ c = '.' := by
  unfold canonChars at h
  rcases List.mem_append.mp h with h1 | h1
  · exact Or.inl (mem_natChars_isDigit h1)
  · split at h1
    · exact absurd h1 (List.not_mem_nil c)
    · rcases List.mem_cons.mp h1 with rfl | h2
      · exact Or.inr rfl
      · have h3 := rstripList_subset _ '0' h2
        exact Or.inl (mem_padLeft9_digit (fun x hx => mem_natChars_isDigit hx) c h3)

theorem comma_not_mem_pyFormat (price : Dec) : ¬(',' ∈ pyFormatChars price) := by
  intro h
  cases price with
  | finite neg num exp =>
    rw [pyFormatChars_finite] at h
    rcases List.mem_append.mp h with h1 | h1
    · cases neg <;> revert h1 <;> decide
    · rcases mem_canonChars h1 with hd | hdot
      · exact absurd hd (by decide)
      · exact absurd hdot (by decide)
  | infinity neg =>
    unfold pyFormatChars at h
    have h3 := rstripList_subset _ '0' (rstripList_subset _ '.' h)
    cases neg <;> revert h3 <;> decide
  | nan =>
    unfold pyFormatChars at h
    have h3 := rstripList_subset _ '0' (rstripList_subset _ '.' h)
    revert h3
    decide

theorem arken_pm2_shape {t : Table} {prices : List (String × ArkenData)}
    {pm pm2 : String → String}
    (hp : processPrices t rateArken prices (fun _ => "-") = .ok pm)
    (hb : pm2 = pm ∨ pm2 = fun s => if s = "ETH" then pm "WETH" else pm s) (s : String) :
    pm2 s = "-" ∨ ∃ price, decimalLt0 price = .ok false ∧ pm2 s = pyFormatPrice price := by
  rcases hb with rfl | rfl
  · exact processPrices_default_shape t rateArken prices _ hp s
  · by_cases hs : s = "ETH"
    · simp only [if_pos hs]
      exact processPrices_default_shape t rateArken prices _ hp "WETH"
    · simp only [if_neg hs]
      exact processPrices_default_shape t rateArken prices _ hp s

/-! ### Claim C1 -/

/-- C1: for every symbol list and decoded response, a successful run of `main`
returns the comma-join of exactly one field per requested symbol, in request
order (the field list is `symbols.map pm`, of the same length as `symbols`);
each field is that symbol's price-map entry: the sentinel `"-"` or the
formatted rendering of an accepted non-negative price; and no field contains a
comma, so the output has exactly as many comma-separated fields as input
symbols.  Stated for the 1inch shape and the Arken shape. -/
theorem claim_C1 :
    (∀ (t : Table) (symbols : List String)
      (fetch : List String → Except String (List (String × String))) (out : String),
      main1inch t symbols fetch = .ok out →
      ∃ pm, get_price_map_1inch t symbols fetch = .ok pm ∧
        out = String.intercalate "," (symbols.map pm) ∧
        (symbols.map pm).length = symbols.length ∧
        ∀ s ∈ symbols, (pm s = "-" ∨
          ∃ price, decimalLt0 price = .ok false ∧ pm s = pyFormatPrice price) ∧
          ¬(',' ∈ (pm s).data)) ∧
    (∀ (t : Table) (symbols : List String)
      (fetch : List String → Except String (List (String × ArkenData))) (out : String),
      mainArken t symbols fetch = .ok out →
      ∃ pm, get_price_map_arken t symbols fetch = .ok pm ∧
        out = String.intercalate "," (symbols.map pm) ∧
        (symbols.map pm).length = symbols.length ∧
        ∀ s ∈ symbols, (pm s = "-" ∨
          ∃ price, decimalLt0 price = .ok false ∧ pm s = pyFormatPrice price) ∧
          ¬(',' ∈ (pm s).data)) := by
  constructor
  · intro t symbols fetch out hmain
    obtain ⟨pm, hg, hout⟩ := main1inch_ok_inv hmain
    obtain ⟨prices, hf, hp⟩ := get_price_map_1inch_ok_inv hg
    refine ⟨pm, hg, hout, List.length_map _ _, fun s _ => ⟨?_, ?_⟩⟩
    · exact processPrices_default_shape t rate1inch prices pm hp s
    · rcases processPrices_default_shape t rate1inch prices pm hp s with hl | ⟨price, -, heq⟩
      · rw [hl]
        decide
      · rw [heq]
        exact comma_not_mem_pyFormat price
  · intro t symbols fetch out hmain
    obtain ⟨pm2, hg, hout⟩ := mainArken_ok_inv hmain
    obtain ⟨prices, pm, hf, hp, hb⟩ := get_price_map_arken_ok_inv hg
    have hb' : pm2 = pm ∨ pm2 = fun s => if s = "ETH" then pm "WETH" else pm s := by
      rcases hb with ⟨-, h⟩ | ⟨-, h⟩
      · exact Or.inl h
      · exact Or.inr h
    refine ⟨pm2, hg, hout, List.length_map _ _, fun s _ => ⟨?_, ?_⟩⟩
    · exact arken_pm2_shape hp hb' s
    · rcases arken_pm2_shape hp hb' s with hl | ⟨price, -, heq⟩
      · rw [hl]
        decide
      · rw [heq]
        exact comma_not_mem_pyFormat price

/-- Witness for C1 on a concrete run of the 1inch BSC deployment. -/
theorem claim_C1_witness :
    ∃ pm, get_price_map_1inch DS_1INCH_BSC.SYMBOLS_TO_ADDRS ["BETH", "X", "PHB"]
        (fun _ => .ok [("0x250632378e573c6be1ac2f97fcdf00515d0aa91b", "1.500000000"),
          ("0x0409633a72d846fc5bbe2f98d88564d35987904d", "2.000000000")]) = .ok pm ∧
      "1.5,-,2" = String.intercalate "," (["BETH", "X", "PHB"].map pm) ∧
      (["BETH", "X", "PHB"].map pm).length = (["BETH", "X", "PHB"] : List String).length ∧
      ∀ s ∈ (["BETH", "X", "PHB"] : List String), (pm s = "-" ∨
        ∃ price, decimalLt0 price = .ok false ∧ pm s = pyFormatPrice price) ∧
        ¬(',' ∈ (pm s).data) :=
  claim_C1.1 DS_1INCH_BSC.SYMBOLS_TO_ADDRS ["BETH", "X", "PHB"]
    (fun _ => .ok [("0x250632378e573c6be1ac2f97fcdf00515d0aa91b", "1.500000000"),
      ("0x0409633a72d846fc5bbe2f98d88564d35987904d", "2.000000000")])
    "1.5,-,2" (by rfl)

/-! ### Claim C2 -/

/-- C2 counterexample: the response attaches the negative price `"-1"` to the
address `"0xdead"`, which is not in the deployment's table; the claim asserts
any negative price in the response aborts the invocation, but the run
succeeds and prints the sentinel line. -/
theorem claim_C2_counterexample :
    parseDecimal "-1" = some (.finite true 1 0) ∧
    decimalLt0 (.finite true 1 0) = .ok true ∧
    DS_1INCH_BSC.main ["BETH"] (fun _ => .ok [("0xdead", "-1")]) = .ok "-" :=
  ⟨by rfl, by rfl, by rfl⟩

/-- C2 as amended: a negative price attached to an address that matches the
deployment's table (case-insensitively) makes the whole invocation fail with
an error, regardless of the other symbols; negative prices on unmatched
addresses are skipped.  Stated for both shapes. -/
theorem claim_C2 :
    (∀ (t : Table) (symbols : List String)
      (fetch : List String → Except String (List (String × String)))
      (prices : List (String × String)) (addr rate s : String) (price : Dec),
      fetch (collectAddrs1inch t symbols) = .ok prices →
      (addr, rate) ∈ prices →
      revLookup t (lowerStr addr) = some s →
      parseDecimal rate = some price →
      decimalLt0 price = .ok true →
      ∃ e, main1inch t symbols fetch = .error e) ∧
    (∀ (t : Table) (symbols : List String)
      (fetch : List String → Except String (List (String × ArkenData)))
      (prices : List (String × ArkenData)) (addr : String) (data : ArkenData)
      (rate s : String) (price : Dec),
      fetch (collectAddrsArken t symbols) = .ok prices →
      (addr, data) ∈ prices →
      revLookup t (lowerStr addr) = some s →
      rateArken data = .ok rate →
      parseDecimal rate = some price →
      decimalLt0 price = .ok true →
      ∃ e, mainArken t symbols fetch = .error e) := by
  constructor
  · intro t symbols fetch prices addr rate s price hf hmem hrl hp hlt
    obtain ⟨e, herr⟩ := processPrices_error_of_bad t rate1inch prices (addr, rate) hmem s hrl
      (Or.inr ⟨rate, rfl, Or.inr ⟨price, hp, by rw [hlt]; simp⟩⟩) (fun _ => "-")
    have hgpm : get_price_map_1inch t symbols fetch = .error e := by
      rw [get_price_map_1inch_fetch_ok hf]
      exact herr
    exact ⟨e, main1inch_gpm_error hgpm⟩
  · intro t symbols fetch prices addr data rate s price hf hmem hrl hg hp hlt
    obtain ⟨e, herr⟩ := processPrices_error_of_bad t rateArken prices (addr, data) hmem s hrl
      (Or.inr ⟨rate, hg, Or.inr ⟨price, hp, by rw [hlt]; simp⟩⟩) (fun _ => "-")
    exact ⟨e, mainArken_gpm_error (get_price_map_arken_proc_error hf herr)⟩

/-- Witness for the amended C2 on the 1inch BSC deployment: a negative price
on the `BETH` address aborts the run. -/
theorem claim_C2_witness :
    ∃ e, main1inch DS_1INCH_BSC.SYMBOLS_TO_ADDRS ["BETH"]
      (fun _ => .ok [("0x250632378e573c6be1ac2f97fcdf00515d0aa91b", "-5")]) = .error e :=
  claim_C2.1 DS_1INCH_BSC.SYMBOLS_TO_ADDRS ["BETH"]
    (fun _ => .ok [("0x250632378e573c6be1ac2f97fcdf00515d0aa91b", "-5")])
    [("0x250632378e573c6be1ac2f97fcdf00515d0aa91b", "-5")]
    "0x250632378e573c6be1ac2f97fcdf00515d0aa91b" "-5" "BETH" (.finite true 5 0)
    (by rfl) (by decide) (by rfl) (by rfl) (by rfl)

/-! ### Claim C3 -/

/-- C3 counterexample: the provider value `"-0"` parses to a negative-signed
zero, a non-negative price value; the run renders it as `"-0"`, which is the
stripped fixed-point rendering but not the shortest exact decimal
representation of the price `0`: the plain numeral `"0"` is shorter. -/
theorem claim_C3_counterexample :
    parseDecimal "-0" = some (.finite true 0 0) ∧
    Dec.val (.finite true 0 0) = 0 ∧
    DS_1INCH_BSC.main ["BETH"]
      (fun _ => .ok [("0x250632378e573c6be1ac2f97fcdf00515d0aa91b", "-0")]) = .ok "-0" ∧
    DenotesPlain "0" (Dec.val (.finite true 0 0)) ∧
    ("0" : String).length < ("-0" : String).length :=
  ⟨by rfl, by norm_num [Dec.val], by rfl,
    ⟨['0'], [], by decide, by decide, by decide, Or.inl ⟨rfl, rfl⟩, by
      have h1 : digitVal ['0'] = 0 := rfl
      have h2 : digitVal ([] : List Char) = 0 := rfl
      norm_num [Dec.val, h1, h2]⟩,
    by decide⟩

/-- C3 as amended: for every price value parsed with a non-negative sign for a
matched address (its last matching response entry), the output field is the
9-digit fixed-point rendering with trailing zeros and a trailing point
stripped (`pyFormatPrice`); the three spec examples hold; and the rendering is
the shortest plain decimal numeral denoting the 9-digit rounding of the
price, which is the price itself whenever the price is exactly representable
with 9 fractional digits. -/
theorem claim_C3 :
    (∀ (t : Table) (symbols : List String)
      (fetch : List String → Except String (List (String × String)))
      (pre post : List (String × String)) (addr rate s : String) (num : ℕ) (exp : ℤ)
      (pm : String → String),
      fetch (collectAddrs1inch t symbols) = .ok (pre ++ (addr, rate) :: post) →
      revLookup t (lowerStr addr) = some s →
      parseDecimal rate = some (.finite false num exp) →
      (∀ q ∈ post, revLookup t (lowerStr q.1) ≠ some s) →
      get_price_map_1inch t symbols fetch = .ok pm →
      pm s = pyFormatPrice (.finite false num exp)) ∧
    (parseDecimal "1.230000000" = some (.finite false 1230000000 (-9)) ∧
      pyFormatPrice (.finite false 1230000000 (-9)) = "1.23") ∧
    (parseDecimal "5.000000000" = some (.finite false 5000000000 (-9)) ∧
      pyFormatPrice (.finite false 5000000000 (-9)) = "5") ∧
    (parseDecimal "0.000000001" = some (.finite false 1 (-9)) ∧
      pyFormatPrice (.finite false 1 (-9)) = "0.000000001") ∧
    (∀ (num : ℕ) (exp : ℤ),
      DenotesPlain (pyFormatPrice (.finite false num exp))
        ((scaled9 num exp : ℚ) / 10 ^ 9) ∧
      (∀ s2 : String, DenotesPlain s2 ((scaled9 num exp : ℚ) / 10 ^ 9) →
        (pyFormatPrice (.finite false num exp)).length ≤ s2.length) ∧
      (Dec.val (.finite false num exp) * 10 ^ 9 = (scaled9 num exp : ℚ) →
        (scaled9 num exp : ℚ) / 10 ^ 9 = Dec.val (.finite false num exp))) := by
  refine ⟨?_, ⟨by rfl, by rfl⟩, ⟨by rfl, by rfl⟩, ⟨by rfl, by rfl⟩, ?_⟩
  · intro t symbols fetch pre post addr rate s num exp pm hf hrl hp hpost hgpm
    rw [get_price_map_1inch_fetch_ok hf] at hgpm
    exact processPrices_ok_last t rate1inch pre post addr rate rate s
      (.finite false num exp) _ pm hrl rfl hp (by rfl) hpost hgpm
  · intro num exp
    refine ⟨pyFormatPrice_denotes num exp, pyFormatPrice_minimal num exp, ?_⟩
    intro h
    rw [← h]
    field_simp

/-- Witness for the amended C3: the last (only) matching entry for `BETH`
carries `1.230000000`, and the field renders as `"1.23"`. -/
theorem claim_C3_witness :
    (fun s => if s = "BETH" then "1.23" else "-") "BETH" =
      pyFormatPrice (.finite false 1230000000 (-9)) :=
  claim_C3.1 DS_1INCH_BSC.SYMBOLS_TO_ADDRS ["BETH"]
    (fun _ => .ok [("0x250632378e573c6be1ac2f97fcdf00515d0aa91b", "1.230000000")])
    [] [] "0x250632378e573c6be1ac2f97fcdf00515d0aa91b" "1.230000000" "BETH"
    1230000000 (-9) (fun s => if s = "BETH" then "1.23" else "-")
    (by rfl) (by rfl) (by rfl) (by intro q hq; exact absurd hq (List.not_mem_nil q))
    (by rfl)

/-! ### Claim C4 -/

/-- C4 counterexample: in the Arken ETH deployment the symbol `"ETH"` is
absent from the address table, yet when the `WETH` address appears in the
response, the back-fill gives `"ETH"` the WETH price instead of the sentinel
`"-"`. -/
theorem claim_C4_counterexample :
    lookupTable DS_ARKEN_ETH.SYMBOLS_TO_ADDRS "ETH" = none ∧
    DS_ARKEN_ETH.main ["ETH"]
      (fun _ => .ok [("0xc02aaa39b223fe8d0a0e5c4f27ead9083c756cc2", [("price", "1")])]) =
      .ok "1" :=
  ⟨by rfl, by rfl⟩

/-- C4 as amended: a requested symbol absent from the table resolves to the
sentinel `"-"` — in the 1inch shape unconditionally, in the Arken shape for
every symbol other than the alias `"ETH"`, whose field is instead copied from
the `"WETH"` entry of the price map whenever `"ETH"` was requested. -/
theorem claim_C4 :
    (∀ (t : Table) (symbols : List String)
      (fetch : List String → Except String (List (String × String)))
      (s : String) (pm : String → String),
      lookupTable t s = none →
      get_price_map_1inch t symbols fetch = .ok pm →
      pm s = "-") ∧
    (∀ (t : Table) (symbols : List String)
      (fetch : List String → Except String (List (String × ArkenData)))
      (s : String) (pm : String → String),
      lookupTable t s = none → s ≠ "ETH" →
      get_price_map_arken t symbols fetch = .ok pm →
      pm s = "-") ∧
    (∀ (t : Table) (symbols : List String)
      (fetch : List String → Except String (List (String × ArkenData)))
      (pm : String → String),
      "ETH" ∈ symbols →
      get_price_map_arken t symbols fetch = .ok pm →
      pm "ETH" = pm "WETH") := by
  refine ⟨?_, ?_, ?_⟩
  · intro t symbols fetch s pm hnone hgpm
    obtain ⟨prices, hf, hp⟩ := get_price_map_1inch_ok_inv hgpm
    rcases processPrices_ok_shape t rate1inch prices _ pm hp s with hl | ⟨p, -, -, -, hrl, -⟩
    · exact hl
    · exact absurd hrl (revLookup_none_of_no_key hnone)
  · intro t symbols fetch s pm hnone hsne hgpm
    obtain ⟨prices, pm0, hf, hp, hb⟩ := get_price_map_arken_ok_inv hgpm
    have hpm0 : pm0 s = "-" := by
      rcases processPrices_ok_shape t rateArken prices _ pm0 hp s with hl | ⟨p, -, -, -, hrl, -⟩
      · exact hl
      · exact absurd hrl (revLookup_none_of_no_key hnone)
    rcases hb with ⟨-, rfl⟩ | ⟨-, rfl⟩
    · exact hpm0
    · show (if s = "ETH" then pm0 "WETH" else pm0 s) = "-"
      rw [if_neg hsne]
      exact hpm0
  · intro t symbols fetch pm hETH hgpm
    obtain ⟨prices, pm0, hf, hp, hb⟩ := get_price_map_arken_ok_inv hgpm
    rcases hb with ⟨hno, -⟩ | ⟨-, rfl⟩
    · exact absurd hETH hno
    · show (if ("ETH" : String) = "ETH" then pm0 "WETH" else pm0 "ETH") =
        (if ("WETH" : String) = "ETH" then pm0 "WETH" else pm0 "WETH")
      rw [if_pos rfl, if_neg (by decide : ¬("WETH" : String) = "ETH")]

/-- Witness for the amended C4: an unknown symbol yields the sentinel. -/
theorem claim_C4_witness :
    (fun _ : String => "-") "X" = "-" :=
  claim_C4.1 DS_1INCH_BSC.SYMBOLS_TO_ADDRS ["X"] (fun _ => .ok []) "X"
    (fun _ => "-") (by rfl) (by rfl)

/-! ### Claim C5 -/

/-- C5: in the Arken shape, whenever `"ETH"` is requested and the `"WETH"`
table address occurs (case-insensitively) among the response keys, the output
field for `"ETH"` equals the output field for `"WETH"` exactly. -/
theorem claim_C5 :
    ∀ (t : Table) (symbols : List String)
      (fetch : List String → Except String (List (String × ArkenData)))
      (prices : List (String × ArkenData)) (wethAddr : String)
      (p : String × ArkenData) (pm : String → String),
      lookupTable t "WETH" = some wethAddr →
      fetch (collectAddrsArken t symbols) = .ok prices →
      p ∈ prices →
      lowerStr p.1 = lowerStr wethAddr →
      "ETH" ∈ symbols →
      get_price_map_arken t symbols fetch = .ok pm →
      pm "ETH" = pm "WETH" := by
  intro t symbols fetch prices wethAddr p pm hweth hf hmem hlow hETH hgpm
  obtain ⟨prices2, pm0, hf2, hp2, hb⟩ := get_price_map_arken_ok_inv hgpm
  rcases hb with ⟨hno, -⟩ | ⟨-, rfl⟩
  · exact absurd hETH hno
  · show (if ("ETH" : String) = "ETH" then pm0 "WETH" else pm0 "ETH") =
      (if ("WETH" : String) = "ETH" then pm0 "WETH" else pm0 "WETH")
    rw [if_pos rfl, if_neg (by decide : ¬("WETH" : String) = "ETH")]

/-- Witness for C5 on the Arken ETH deployment: with the `WETH` address in the
response, the `ETH` and `WETH` fields coincide. -/
theorem claim_C5_witness :
    (fun s => if s = "ETH" then "2" else if s = "WETH" then "2" else "-") "ETH" =
      (fun s => if s = "ETH" then "2" else if s = "WETH" then "2" else "-") "WETH" :=
  claim_C5 DS_ARKEN_ETH.SYMBOLS_TO_ADDRS ["ETH", "WETH"]
    (fun _ => .ok [("0xc02aaa39b223fe8d0a0e5c4f27ead9083c756cc2", [("price", "2")])])
    [("0xc02aaa39b223fe8d0a0e5c4f27ead9083c756cc2", [("price", "2")])]
    "0xc02aaa39b223fe8d0a0e5c4f27ead9083c756cc2"
    ("0xc02aaa39b223fe8d0a0e5c4f27ead9083c756cc2", [("price", "2")])
    (fun s => if s = "ETH" then "2" else if s = "WETH" then "2" else "-")
    (by rfl) (by rfl) (by decide) (by rfl) (by decide) (by rfl)

/-! ### Claim C6 -/

/-- C6 counterexample: the 1inch loop appends one address per table hit, so a
repeated symbol sends the same address twice in the single outbound request —
the address list is not duplicate-free. -/
theorem claim_C6_counterexample :
    collectAddrs1inch DS_1INCH_BSC.SYMBOLS_TO_ADDRS ["BETH", "BETH"] =
      ["0x250632378e573c6be1ac2f97fcdf00515d0aa91b",
       "0x250632378e573c6be1ac2f97fcdf00515d0aa91b"] ∧
    ¬(collectAddrs1inch DS_1INCH_BSC.SYMBOLS_TO_ADDRS ["BETH", "BETH"]).Nodup :=
  ⟨by rfl, by decide⟩

/-- C6 as amended: the Arken shape hands the fetcher a duplicate-free address
list containing exactly the table addresses of the alias-substituted
requested symbols; the 1inch shape instead hands one address per requested
symbol found in the table, duplicates preserved. -/
theorem claim_C6 :
    (∀ (t : Table) (symbols : List String),
      (collectAddrsArken t symbols).Nodup ∧
      ∀ a, a ∈ collectAddrsArken t symbols ↔
        ∃ s ∈ symbols, lookupTable t (aliasETH s) = some a) ∧
    (∀ (t : Table) (symbols : List String),
      collectAddrs1inch t symbols = symbols.filterMap (lookupTable t)) :=
  ⟨fun t symbols => ⟨collectAddrsArken_nodup t symbols,
    fun a => mem_collectAddrsArken t symbols a⟩,
   collectAddrs1inch_eq_filterMap⟩

/-! ### Claim C7 -/

/-- C7: a symbol present in the table whose address occurs in no response key
(case-insensitively) resolves to the sentinel `"-"`, and a missing price is
never an error: whether the invocation succeeds does not depend on the
requested symbols at all, only on the decoded response.  The Arken statement
assumes the alias `"ETH"` is not itself a table key, as in both Arken
deployments. -/
theorem claim_C7 :
    (∀ (t : Table) (symbols : List String)
      (fetch : List String → Except String (List (String × String)))
      (prices : List (String × String)) (s a : String) (pm : String → String),
      (t.map Prod.fst).Nodup →
      lookupTable t s = some a →
      fetch (collectAddrs1inch t symbols) = .ok prices →
      (∀ p ∈ prices, lowerStr p.1 ≠ lowerStr a) →
      get_price_map_1inch t symbols fetch = .ok pm →
      pm s = "-") ∧
    (∀ (t : Table) (symbols : List String)
      (fetch : List String → Except String (List (String × ArkenData)))
      (prices : List (String × ArkenData)) (s a : String) (pm : String → String),
      (t.map Prod.fst).Nodup →
      lookupTable t "ETH" = none →
      lookupTable t s = some a →
      fetch (collectAddrsArken t symbols) = .ok prices →
      (∀ p ∈ prices, lowerStr p.1 ≠ lowerStr a) →
      get_price_map_arken t symbols fetch = .ok pm →
      pm s = "-") ∧
    (∀ (t : Table) (symbols symbols2 : List String)
      (prices : List (String × String)),
      (∃ pm, get_price_map_1inch t symbols (fun _ => .ok prices) = .ok pm) ↔
        (∃ pm, get_price_map_1inch t symbols2 (fun _ => .ok prices) = .ok pm)) ∧
    (∀ (t : Table) (symbols symbols2 : List String)
      (prices : List (String × ArkenData)),
      (∃ pm, get_price_map_arken t symbols (fun _ => .ok prices) = .ok pm) ↔
        (∃ pm, get_price_map_arken t symbols2 (fun _ => .ok prices) = .ok pm)) := by
  have hkey : ∀ (t : Table) (s a : String), (t.map Prod.fst).Nodup →
      lookupTable t s = some a →
      ∀ (addr : String), lowerStr addr ≠ lowerStr a →
      revLookup t (lowerStr addr) ≠ some s := by
    intro t s a hnd hla addr hne hr
    obtain ⟨v, hv, hlv⟩ := revLookup_mem hr
    have : lookupTable t s = some v := mem_lookupTable hnd hv
    rw [hla] at this
    have hva : v = a := Option.some.inj this.symm
    subst hva
    exact hne hlv.symm
  have harkOk : ∀ (t : Table) (symbols : List String)
      (prices : List (String × ArkenData)),
      (∃ pm, get_price_map_arken t symbols (fun _ => .ok prices) = .ok pm) ↔
        (∃ pm, processPrices t rateArken prices (fun _ => "-") = .ok pm) := by
    intro t symbols prices
    constructor
    · rintro ⟨pm, hpm⟩
      obtain ⟨prices2, pm0, hf, hp, -⟩ := get_price_map_arken_ok_inv hpm
      have : prices = prices2 := Except.ok.inj hf
      subst this
      exact ⟨pm0, hp⟩
    · rintro ⟨pm, hpm⟩
      have := @get_price_map_arken_fetch_ok t symbols (fun _ => .ok prices) prices pm rfl hpm
      by_cases hETH : "ETH" ∈ symbols
      · rw [if_pos hETH] at this
        exact ⟨_, this⟩
      · rw [if_neg hETH] at this
        exact ⟨_, this⟩
  refine ⟨?_, ?_, ?_, ?_⟩
  · intro t symbols fetch prices s a pm hnd hla hf hno hgpm
    obtain ⟨prices2, hf2, hp⟩ := get_price_map_1inch_ok_inv hgpm
    have : prices2 = prices := by
      rw [hf] at hf2
      exact (Except.ok.inj hf2).symm
    subst this
    rcases processPrices_ok_shape t rate1inch prices2 _ pm hp s with hl | ⟨p, hpmem, -, -, hrl, -⟩
    · exact hl
    · exact absurd hrl (hkey t s a hnd hla p.1 (hno p hpmem))
  · intro t symbols fetch prices s a pm hnd hETHnone hla hf hno hgpm
    obtain ⟨prices2, pm0, hf2, hp, hb⟩ := get_price_map_arken_ok_inv hgpm
    have : prices2 = prices := by
      rw [hf] at hf2
      exact (Except.ok.inj hf2).symm
    subst this
    have hpm0 : pm0 s = "-" := by
      rcases processPrices_ok_shape t rateArken prices2 _ pm0 hp s with hl | ⟨p, hpmem, -, -, hrl, -⟩
      · exact hl
      · exact absurd hrl (hkey t s a hnd hla p.1 (hno p hpmem))
    have hsne : s ≠ "ETH" := by
      intro hs
      rw [hs, hETHnone] at hla
      exact absurd hla (by simp)
    rcases hb with ⟨-, rfl⟩ | ⟨-, rfl⟩
    · exact hpm0
    · show (if s = "ETH" then pm0 "WETH" else pm0 s) = "-"
      rw [if_neg hsne]
      exact hpm0
  · intro t symbols symbols2 prices
    rw [@get_price_map_1inch_fetch_ok t symbols (fun _ => .ok prices) prices rfl,
      @get_price_map_1inch_fetch_ok t symbols2 (fun _ => .ok prices) prices rfl]
  · intro t symbols symbols2 prices
    rw [harkOk t symbols prices, harkOk t symbols2 prices]

/-- Witness for C7: `PHB` is in the 1inch BSC table but its address is not
among the response keys, so its field is the sentinel. -/
theorem claim_C7_witness :
    (fun s => if s = "BETH" then "3" else "-") "PHB" = "-" :=
  claim_C7.1 DS_1INCH_BSC.SYMBOLS_TO_ADDRS ["PHB"]
    (fun _ => .ok [("0x250632378e573c6be1ac2f97fcdf00515d0aa91b", "3")])
    [("0x250632378e573c6be1ac2f97fcdf00515d0aa91b", "3")]
    "PHB" "0x0409633A72D846fc5BBe2f98D88564D35987904D"
    (fun s => if s = "BETH" then "3" else "-")
    (by decide) (by rfl) (by rfl) (by decide) (by rfl)

/-! ### Claim C8 -/

/-- C8: address matching is case-insensitive.  A response key equal to a table
address up to letter case resolves to that address's symbol (the table address
being unique up to lowercasing, as in every deployment), and the price of such
an entry — when it is the last match for the symbol — becomes that symbol's
field. -/
theorem claim_C8 :
    (∀ (t : Table) (s av key : String),
      (s, av) ∈ t →
      lowerStr key = lowerStr av →
      (∀ p ∈ t, lowerStr p.2 = lowerStr av → p = (s, av)) →
      revLookup t (lowerStr key) = some s) ∧
    (∀ (t : Table) (symbols : List String)
      (fetch : List String → Except String (List (String × String)))
      (pre post : List (String × String)) (key rate s av : String) (price : Dec)
      (pm : String → String),
      (s, av) ∈ t →
      lowerStr key = lowerStr av →
      (∀ p ∈ t, lowerStr p.2 = lowerStr av → p = (s, av)) →
      fetch (collectAddrs1inch t symbols) = .ok (pre ++ (key, rate) :: post) →
      parseDecimal rate = some price →
      decimalLt0 price = .ok false →
      (∀ q ∈ post, revLookup t (lowerStr q.1) ≠ some s) →
      get_price_map_1inch t symbols fetch = .ok pm →
      pm s = pyFormatPrice price) := by
  have hrl : ∀ (t : Table) (s av key : String),
      (s, av) ∈ t → lowerStr key = lowerStr av →
      (∀ p ∈ t, lowerStr p.2 = lowerStr av → p = (s, av)) →
      revLookup t (lowerStr key) = some s := by
    intro t s av key hmem hlow huniq
    rw [hlow]
    exact revLookup_eq_some hmem rfl huniq
  refine ⟨hrl, ?_⟩
  intro t symbols fetch pre post key rate s av price pm hmem hlow huniq hf hp hlt hpost hgpm
  rw [get_price_map_1inch_fetch_ok hf] at hgpm
  exact processPrices_ok_last t rate1inch pre post key rate rate s price _ pm
    (hrl t s av key hmem hlow huniq) rfl hp hlt hpost hgpm

/-- Witness for C8 on the 1inch BSC deployment: the `PHB` table address is
mixed-case, the response key is all lowercase, and the price still lands on
`PHB`. -/
theorem claim_C8_witness :
    (fun s => if s = "PHB" then "2" else "-") "PHB" =
      pyFormatPrice (.finite false 2 0) :=
  claim_C8.2 DS_1INCH_BSC.SYMBOLS_TO_ADDRS ["PHB"]
    (fun _ => .ok [("0x0409633a72d846fc5bbe2f98d88564d35987904d", "2")])
    [] [] "0x0409633a72d846fc5bbe2f98d88564d35987904d" "2" "PHB"
    "0x0409633A72D846fc5BBe2f98D88564D35987904D" (.finite false 2 0)
    (fun s => if s = "PHB" then "2" else "-")
    (by decide) (by rfl) (by decide) (by rfl) (by rfl) (by rfl)
    (by intro q hq; exact absurd hq (List.not_mem_nil q)) (by rfl)

/-! ### Claim C9 -/

/-- C9 counterexample: the decimal parser accepts the non-numeral string
`"Infinity"`; attached to a table address it does not abort the invocation —
the run succeeds and prints the field `"Infinity"`. -/
theorem claim_C9_counterexample :
    (∀ q : ℚ, ¬DenotesPlain "Infinity" q) ∧
    parseDecimal "Infinity" = some (.infinity false) ∧
    DS_1INCH_BSC.main ["BETH"]
      (fun _ => .ok [("0x250632378e573c6be1ac2f97fcdf00515d0aa91b", "Infinity")]) =
      .ok "Infinity" := by
  refine ⟨?_, by rfl, by rfl⟩
  intro q hd
  obtain ⟨I, F, hIne, hIdig, -, hform, -⟩ := hd
  have hdata : ("Infinity" : String).data =
      'I' :: ('n' :: 'f' :: 'i' :: 'n' :: 'i' :: 't' :: 'y' :: []) := rfl
  cases I with
  | nil => exact hIne rfl
  | cons c I2 =>
    have hc : c = 'I' := by
      rcases hform with ⟨hs, -⟩ | hs <;> rw [hdata] at hs
      · exact (List.cons.inj hs).1.symm
      · rw [List.cons_append] at hs
        exact (List.cons.inj hs).1.symm
    have := hIdig c (List.mem_cons_self c I2)
    rw [hc] at this
    exact absurd this (by decide)

/-- C9 as amended: a price value string that the decimal parser rejects — on
ASCII strings the model's rejection set coincides with Python's — or, in the
Arken shape, an object lacking the `"price"` field, aborts the whole
invocation when its address matches the table; so does an accepted NaN (in
either shape), which fails at the negativity comparison.  (An accepted
positive Infinity, by contrast, flows through as the field `"Infinity"`.) -/
theorem claim_C9 :
    (∀ (t : Table) (symbols : List String)
      (fetch : List String → Except String (List (String × String)))
      (prices : List (String × String)) (addr rate s : String),
      fetch (collectAddrs1inch t symbols) = .ok prices →
      (addr, rate) ∈ prices →
      revLookup t (lowerStr addr) = some s →
      (∀ c ∈ rate.data, isAsciiChar c = true) →
      parseDecimal rate = none →
      ∃ e, main1inch t symbols fetch = .error e) ∧
    (∀ (t : Table) (symbols : List String)
      (fetch : List String → Except String (List (String × String)))
      (prices : List (String × String)) (addr rate s : String),
      fetch (collectAddrs1inch t symbols) = .ok prices →
      (addr, rate) ∈ prices →
      revLookup t (lowerStr addr) = some s →
      parseDecimal rate = some .nan →
      ∃ e, main1inch t symbols fetch = .error e) ∧
    (∀ (t : Table) (symbols : List String)
      (fetch : List String → Except String (List (String × ArkenData)))
      (prices : List (String × ArkenData)) (addr : String) (data : ArkenData)
      (s : String),
      fetch (collectAddrsArken t symbols) = .ok prices →
      (addr, data) ∈ prices →
      revLookup t (lowerStr addr) = some s →
      lookupTable data "price" = none →
      ∃ e, mainArken t symbols fetch = .error e) ∧
    (∀ (t : Table) (symbols : List String)
      (fetch : List String → Except String (List (String × ArkenData)))
      (prices : List (String × ArkenData)) (addr : String) (data : ArkenData)
      (rate s : String),
      fetch (collectAddrsArken t symbols) = .ok prices →
      (addr, data) ∈ prices →
      revLookup t (lowerStr addr) = some s →
      rateArken data = .ok rate →
      (∀ c ∈ rate.data, isAsciiChar c = true) →
      parseDecimal rate = none →
      ∃ e, mainArken t symbols fetch = .error e) ∧
    (∀ (t : Table) (symbols : List String)
      (fetch : List String → Except String (List (String × ArkenData)))
      (prices : List (String × ArkenData)) (addr : String) (data : ArkenData)
      (rate s : String),
      fetch (collectAddrsArken t symbols) = .ok prices →
      (addr, data) ∈ prices →
      revLookup t (lowerStr addr) = some s →
      rateArken data = .ok rate →
      parseDecimal rate = some .nan →
      ∃ e, mainArken t symbols fetch = .error e) := by
  refine ⟨?_, ?_, ?_, ?_, ?_⟩
  · intro t symbols fetch prices addr rate s hf hmem hrl hascii hp
    obtain ⟨e, herr⟩ := processPrices_error_of_bad t rate1inch prices (addr, rate) hmem s hrl
      (Or.inr ⟨rate, rfl, Or.inl hp⟩) (fun _ => "-")
    refine ⟨e, main1inch_gpm_error ?_⟩
    rw [get_price_map_1inch_fetch_ok hf]
    exact herr
  · intro t symbols fetch prices addr rate s hf hmem hrl hp
    obtain ⟨e, herr⟩ := processPrices_error_of_bad t rate1inch prices (addr, rate) hmem s hrl
      (Or.inr ⟨rate, rfl, Or.inr ⟨.nan, hp, by simp [decimalLt0]⟩⟩) (fun _ => "-")
    refine ⟨e, main1inch_gpm_error ?_⟩
    rw [get_price_map_1inch_fetch_ok hf]
    exact herr
  · intro t symbols fetch prices addr data s hf hmem hrl hp
    obtain ⟨e, herr⟩ := processPrices_error_of_bad t rateArken prices (addr, data) hmem s hrl
      (Or.inl ⟨"KeyError: price", by unfold rateArken; rw [hp]⟩) (fun _ => "-")
    exact ⟨e, mainArken_gpm_error (get_price_map_arken_proc_error hf herr)⟩
  · intro t symbols fetch prices addr data rate s hf hmem hrl hg hascii hp
    obtain ⟨e, herr⟩ := processPrices_error_of_bad t rateArken prices (addr, data) hmem s hrl
      (Or.inr ⟨rate, hg, Or.inl hp⟩) (fun _ => "-")
    exact ⟨e, mainArken_gpm_error (get_price_map_arken_proc_error hf herr)⟩
  · intro t symbols fetch prices addr data rate s hf hmem hrl hg hp
    obtain ⟨e, herr⟩ := processPrices_error_of_bad t rateArken prices (addr, data) hmem s hrl
      (Or.inr ⟨rate, hg, Or.inr ⟨.nan, hp, by simp [decimalLt0]⟩⟩) (fun _ => "-")
    exact ⟨e, mainArken_gpm_error (get_price_map_arken_proc_error hf herr)⟩

/-- Witness for the amended C9: a malformed ASCII decimal string on a table
address aborts the 1inch BSC run. -/
theorem claim_C9_witness :
    ∃ e, main1inch DS_1INCH_BSC.SYMBOLS_TO_ADDRS ["BETH"]
      (fun _ => .ok [("0x250632378e573c6be1ac2f97fcdf00515d0aa91b", "abc")]) = .error e :=
  claim_C9.1 DS_1INCH_BSC.SYMBOLS_TO_ADDRS ["BETH"]
    (fun _ => .ok [("0x250632378e573c6be1ac2f97fcdf00515d0aa91b", "abc")])
    [("0x250632378e573c6be1ac2f97fcdf00515d0aa91b", "abc")]
    "0x250632378e573c6be1ac2f97fcdf00515d0aa91b" "abc" "BETH"
    (by rfl) (by decide) (by rfl) (by decide) (by rfl)

/-! ### Claim C10 -/

theorem pyFormat_shape_of_nonneg {price : Dec} (h : decimalLt0 price = .ok false) :
    pyFormatPrice price = "Infinity" ∨ pyFormatPrice price = "-0" ∨
      StrippedNumeral (pyFormatPrice price) := by
  cases price with
  | finite neg num exp =>
    rw [show decimalLt0 (.finite neg num exp) = .ok (neg && !(num == 0)) from rfl] at h
    have hb : (neg && !(num == 0)) = false := Except.ok.inj h
    cases neg with
    | false => exact Or.inr (Or.inr (pyFormatPrice_nonneg_stripped num exp))
    | true =>
      have h0 : num = 0 := by simpa using hb
      subst h0
      exact Or.inr (Or.inl (pyFormatPrice_negZero exp))
  | infinity neg =>
    rw [show decimalLt0 (.infinity neg) = .ok neg from rfl] at h
    have hb : neg = false := Except.ok.inj h
    subst hb
    exact Or.inl pyFormatPrice_inf
  | nan => exact absurd h (by simp [decimalLt0])

/-- C10 counterexample: the provider value `"-0"` is a price exactly equal to
zero, passes the negativity check, and renders as the field `"-0"`: not the
sentinel, not `"0"`, and not a plain decimal numeral. -/
theorem claim_C10_counterexample :
    parseDecimal "-0" = some (.finite true 0 0) ∧
    decimalLt0 (.finite true 0 0) = .ok false ∧
    Dec.val (.finite true 0 0) = 0 ∧
    DS_1INCH_BSC.main ["BETH"]
      (fun _ => .ok [("0x250632378e573c6be1ac2f97fcdf00515d0aa91b", "-0")]) = .ok "-0" ∧
    ("-0" : String) ≠ "-" ∧ ("-0" : String) ≠ "0" ∧
    (∀ q : ℚ, ¬DenotesPlain "-0" q) := by
  refine ⟨by rfl, by rfl, by norm_num [Dec.val], by rfl, by decide, by decide, ?_⟩
  intro q hd
  obtain ⟨I, F, hIne, hIdig, -, hform, -⟩ := hd
  have hdata : ("-0" : String).data = '-' :: ('0' :: []) := rfl
  cases I with
  | nil => exact hIne rfl
  | cons c I2 =>
    have hc : c = '-' := by
      rcases hform with ⟨hs, -⟩ | hs <;> rw [hdata] at hs
      · exact (List.cons.inj hs).1.symm
      · rw [List.cons_append] at hs
        exact (List.cons.inj hs).1.symm
    have := hIdig c (List.mem_cons_self c I2)
    rw [hc] at this
    exact absurd this (by decide)

/-- C10 as amended: every field of a successful output is the sentinel `"-"`,
the string `"Infinity"` (an accepted positive Infinity), the string `"-0"` (a
minus-signed zero), or a plain decimal numeral with no trailing fractional
zeros and no trailing decimal point; and a price parsed without a minus sign
whose value is exactly 0 renders as `"0"`, distinguishable from an absent
price. -/
theorem claim_C10 :
    (∀ (t : Table) (symbols : List String)
      (fetch : List String → Except String (List (String × String))) (out : String),
      main1inch t symbols fetch = .ok out →
      ∃ pm, out = String.intercalate "," (symbols.map pm) ∧
        ∀ s ∈ symbols, pm s = "-" ∨ pm s = "Infinity" ∨ pm s = "-0" ∨
          StrippedNumeral (pm s)) ∧
    (∀ (t : Table) (symbols : List String)
      (fetch : List String → Except String (List (String × ArkenData))) (out : String),
      mainArken t symbols fetch = .ok out →
      ∃ pm, out = String.intercalate "," (symbols.map pm) ∧
        ∀ s ∈ symbols, pm s = "-" ∨ pm s = "Infinity" ∨ pm s = "-0" ∨
          StrippedNumeral (pm s)) ∧
    (∀ (num : ℕ) (exp : ℤ), Dec.val (.finite false num exp) = 0 →
      pyFormatPrice (.finite false num exp) = "0") := by
  refine ⟨?_, ?_, ?_⟩
  · intro t symbols fetch out hmain
    obtain ⟨pm, hg, hout⟩ := main1inch_ok_inv hmain
    obtain ⟨prices, hf, hp⟩ := get_price_map_1inch_ok_inv hg
    refine ⟨pm, hout, fun s _ => ?_⟩
    rcases processPrices_default_shape t rate1inch prices pm hp s with hl | ⟨price, hlt, heq⟩
    · exact Or.inl hl
    · rw [heq]
      rcases pyFormat_shape_of_nonneg hlt with h | h | h
      · exact Or.inr (Or.inl h)
      · exact Or.inr (Or.inr (Or.inl h))
      · exact Or.inr (Or.inr (Or.inr h))
  · intro t symbols fetch out hmain
    obtain ⟨pm2, hg, hout⟩ := mainArken_ok_inv hmain
    obtain ⟨prices, pm, hf, hp, hb⟩ := get_price_map_arken_ok_inv hg
    have hb' : pm2 = pm ∨ pm2 = fun s => if s = "ETH" then pm "WETH" else pm s := by
      rcases hb with ⟨-, h⟩ | ⟨-, h⟩
      · exact Or.inl h
      · exact Or.inr h
    refine ⟨pm2, hout, fun s _ => ?_⟩
    rcases arken_pm2_shape hp hb' s with hl | ⟨price, hlt, heq⟩
    · exact Or.inl hl
    · rw [heq]
      rcases pyFormat_shape_of_nonneg hlt with h | h | h
      · exact Or.inr (Or.inl h)
      · exact Or.inr (Or.inr (Or.inl h))
      · exact Or.inr (Or.inr (Or.inr h))
  · intro num exp hval
    unfold Dec.val at hval
    simp only [if_neg (by decide : ¬False), Bool.false_eq_true, if_false, one_mul] at hval
    rcases mul_eq_zero.mp hval with h | h
    · have h0 : num = 0 := by exact_mod_cast h
      subst h0
      exact pyFormatPrice_posZero exp
    · exact absurd h (zpow_ne_zero exp (by norm_num))

/-- Witness for the amended C10 on a concrete 1inch BSC run. -/
theorem claim_C10_witness :
    ∃ pm, "1.5" = String.intercalate "," ((["BETH"] : List String).map pm) ∧
      ∀ s ∈ (["BETH"] : List String), pm s = "-" ∨ pm s = "Infinity" ∨ pm s = "-0" ∨
        StrippedNumeral (pm s) :=
  claim_C10.1 DS_1INCH_BSC.SYMBOLS_TO_ADDRS ["BETH"]
    (fun _ => .ok [("0x250632378e573c6be1ac2f97fcdf00515d0aa91b", "1.500000000")])
    "1.5" (by rfl)
